import Mathlib

/-!
# Slotmap.hpp: a generational slot map

A shallow embedding of `content/code/Slotmap.hpp` and the properties of it that the
specification states.

Conventions of the embedding.

* `unsigned`, `uint32_t` (the default `IndexType` and `GenerationType`) are natural numbers
  reduced modulo `U32 = 2 ^ 32` wherever the source converts or increments them;
  `size_t` is 64 bit and `SIZE_MAX = 2 ^ 64 - 1`.
* `std::vector<Node>` is a `List`; `emplace_back` appends, `operator[]` with an index the
  source has not checked against `size()` is a read that may fail.
* The anonymous union of `Node` is the sum type `Payload`; its constructor records which
  member was written last.  Reading the other member is not given a meaning.
* A member function is a function of the map state that yields an `Outcome`: a normal
  return with a result and the state after the call, a thrown `std::runtime_error` with
  its message and the state at the throw, or `undefined` where the source reads outside
  the vector or reads the union member that was not written.
* The destructor call `node.uData.~Value()` has no effect on the state that is modelled.
* `this` is an address, a natural number.
-/

namespace Slotmap

/-- Number of values of a 32 bit unsigned integer. -/
def U32 : Nat := 4294967296

/-- Largest `size_t`, the marker `SIZE_MAX` that ends the free list. -/
def SIZE_MAX : Nat := 18446744073709551615

/-- Number of values of `size_t`. -/
def SIZE_T : Nat := 18446744073709551616

/-- Result of calling a member function: see the conventions above. -/
inductive Outcome (ρ σ : Type) where
  | returned (r : ρ) (s : σ)
  | threw (what : String) (s : σ)
  | undefined
  deriving DecidableEq, Repr

/-- State after a call whose behaviour the source defines. -/
def Outcome.state? {ρ σ : Type} : Outcome ρ σ → Option σ
  | .returned _ s => some s
  | .threw _ s => some s
  | .undefined => none

/-- Class `SlotKey`: the two public data members. -/
structure SlotKey where
  mGeneration : Nat
  mIndex : Nat
  deriving DecidableEq, Repr

/-- Constructor `SlotKey(unsigned generation, unsigned index)`: both arguments are
converted to `unsigned`. -/
def SlotKey.ctor (generation index : Nat) : SlotKey :=
  { mGeneration := generation % U32, mIndex := index % U32 }

/-- Default constructor `SlotKey()`: `std::numeric_limits<...>::max()` in both members. -/
def SlotKey.default : SlotKey :=
  { mGeneration := U32 - 1, mIndex := U32 - 1 }

/-- Members of a key hold values of the 32 bit types. -/
def SlotKey.InRange (k : SlotKey) : Prop :=
  k.mGeneration < U32 ∧ k.mIndex < U32

instance (k : SlotKey) : Decidable k.InRange := by
  unfold SlotKey.InRange; infer_instance

/-- Accessor `SlotKey::GetGeneration`. -/
def SlotKey.GetGeneration (k : SlotKey) : Nat := k.mGeneration

/-- Accessor `SlotKey::GetIndex`. -/
def SlotKey.GetIndex (k : SlotKey) : Nat := k.mIndex

/-- Friend `operator==` of `SlotKey`. -/
def SlotKey.eq (lhs rhs : SlotKey) : Bool :=
  decide (lhs.mGeneration = rhs.mGeneration) && decide (lhs.mIndex = rhs.mIndex)

/-- Friend `operator!=` of `SlotKey`: `!(lhs == rhs)`. -/
def SlotKey.ne (lhs rhs : SlotKey) : Bool :=
  !(SlotKey.eq lhs rhs)

/-- Struct `SlotMap::TypedKey`: a wrapped `Key`. -/
structure TypedKey where
  mKey : SlotKey
  deriving DecidableEq, Repr

/-- Accessor `TypedKey::GetGeneration`. -/
def TypedKey.GetGeneration (k : TypedKey) : Nat := k.mKey.GetGeneration

/-- Accessor `TypedKey::GetIndex`. -/
def TypedKey.GetIndex (k : TypedKey) : Nat := k.mKey.GetIndex

/-- Constructor `TypedKey(GenerationType generation, IndexType index)`:
`mKey(generation, index)`. -/
def TypedKey.ctor (generation index : Nat) : TypedKey :=
  { mKey := SlotKey.ctor generation index }

/-- Default constructor `TypedKey()`: `mKey()`. -/
def TypedKey.default : TypedKey :=
  { mKey := SlotKey.default }

/-- Friend `operator==` of `TypedKey`: `lhs.mKey == rhs.mKey`. -/
def TypedKey.eq (lhs rhs : TypedKey) : Bool :=
  SlotKey.eq lhs.mKey rhs.mKey

/-- Friend `operator!=` of `TypedKey`: `!(lhs == rhs)`. -/
def TypedKey.ne (lhs rhs : TypedKey) : Bool :=
  !(TypedKey.eq lhs rhs)

/-- Anonymous union of `Node`: `Value uData` or `size_t uNextFree`. -/
inductive Payload (V : Type) where
  | uData (v : V)
  | uNextFree (n : Nat)
  deriving DecidableEq, Repr

/-- Struct `SlotMap::Node`. -/
structure Node (V : Type) where
  u : Payload V
  mGeneration : Nat
  mHasData : Bool
  deriving DecidableEq, Repr

/-- Constructor `Node(Value&& data, unsigned generation)`. -/
def Node.ctor {V : Type} (data : V) (generation : Nat) : Node V :=
  { u := .uData data, mGeneration := generation % U32, mHasData := true }

/-- Move constructor `Node(Node&& other)`, which `std::vector` runs on every node when
`emplace_back` reallocates: the flag and the generation are copied, then `uData` or
`uNextFree` according to the flag.  `none` where the member read is not the one that
was written last. -/
def Node.move {V : Type} (other : Node V) : Option (Node V) :=
  if other.mHasData then
    match other.u with
    | .uData v => some { u := .uData v, mGeneration := other.mGeneration, mHasData := true }
    | .uNextFree _ => none
  else
    match other.u with
    | .uNextFree n =>
      some { u := .uNextFree n, mGeneration := other.mGeneration, mHasData := false }
    | .uData _ => none

/-- Data members of class `SlotMap`. -/
structure SlotMap (V : Type) where
  mNodes : List (Node V)
  mFreeList : Nat
  mSize : Nat
  deriving DecidableEq, Repr

/-- Class `SlotMap::iterator`: the map it points into and a position. -/
structure iterator where
  mPtr : Nat
  mIndex : Nat
  deriving DecidableEq, Repr

/-- Class `SlotMap::const_iterator`. -/
structure const_iterator where
  mPtr : Nat
  mIndex : Nat
  deriving DecidableEq, Repr

/-- Values of the expressions of Slotmap.hpp that use a name or an operator the header
does not declare: `key.index` in `TryRemove` (a `SlotKey` has `mIndex`), and the
comparison `iter.mPtr == end()` of a map pointer with an iterator in the two `erase`
overloads.  Both overloads of `erase` are non-const members, so in both `end()` is the
non-const `end()` and yields an `iterator`. -/
structure Undeclared where
  key_index : SlotKey → Nat
  ptr_eq_end : Nat → iterator → Bool
  ptr_eq_cend : Nat → iterator → Bool

namespace SlotMap

variable {V : Type}

/-- Constructor `SlotMap()`: `mNodes()` and `mFreeList(SIZE_MAX)`.  No constructor of the
class initialises `mSize`; `indeterminate` is the value the member happens to hold. -/
def ctor (indeterminate : Nat) : SlotMap V :=
  { mNodes := [], mFreeList := SIZE_MAX, mSize := indeterminate }

/-- Member `SlotMap::Size`. -/
def Size (m : SlotMap V) : Nat := m.mSize

/-- Member `SlotMap::insert`. -/
def insert (m : SlotMap V) (data : V) : Outcome TypedKey (SlotMap V) :=
  if m.mFreeList ≠ SIZE_MAX then
    match m.mNodes[m.mFreeList]? with
    | some { u := .uNextFree next, mGeneration := generation, mHasData := _ } =>
      .returned { mKey := SlotKey.ctor generation m.mFreeList }
        { mNodes := m.mNodes.set m.mFreeList
            { u := .uData data, mGeneration := generation, mHasData := true }
          mFreeList := next
          mSize := (m.mSize + 1) % U32 }
    | _ => .undefined
  else
    .returned { mKey := SlotKey.ctor 0 m.mNodes.length }
      { mNodes := m.mNodes ++ [Node.ctor data 0]
        mFreeList := m.mFreeList
        mSize := (m.mSize + 1) % U32 }

/-- Statements shared by `remove`, `TryRemove` and `erase` once the node is known to
exist: bump the generation, link the node in front of the free list, clear the flag. -/
def freeNode (m : SlotMap V) (index : Nat) (node : Node V) : List (Node V) :=
  m.mNodes.set index
    { u := .uNextFree m.mFreeList, mGeneration := (node.mGeneration + 1) % U32,
      mHasData := false }

/-- Member `SlotMap::remove(Key)`. -/
def remove (m : SlotMap V) (key : SlotKey) : Outcome Unit (SlotMap V) :=
  if h : key.mIndex ≥ m.mNodes.length then
    .threw "Invalid key - invalid index" m
  else
    let node := m.mNodes[key.mIndex]
    if node.mGeneration ≠ key.mGeneration then
      .threw "Invalid key - object already destroyed" m
    else
      .returned ()
        { mNodes := freeNode m key.mIndex node
          mFreeList := key.mIndex
          mSize := (m.mSize + U32 - 1) % U32 }

/-- Member `SlotMap::remove(TypedKey)`. -/
def removeTyped (m : SlotMap V) (key : TypedKey) : Outcome Unit (SlotMap V) :=
  remove m key.mKey

/-- Member `SlotMap::TryRemove(Key)`.  The new free list head is written `key.index`. -/
def TryRemove (U : Undeclared) (m : SlotMap V) (key : SlotKey) :
    Outcome Bool (SlotMap V) :=
  if h : key.mIndex ≥ m.mNodes.length then
    .returned false m
  else
    let node := m.mNodes[key.mIndex]
    if node.mGeneration ≠ key.mGeneration then
      .returned false m
    else
      .returned true
        { mNodes := freeNode m key.mIndex node
          mFreeList := U.key_index key
          mSize := (m.mSize + U32 - 1) % U32 }

/-- Member `SlotMap::TryRemove(TypedKey)`. -/
def TryRemoveTyped (U : Undeclared) (m : SlotMap V) (key : TypedKey) :
    Outcome Bool (SlotMap V) :=
  TryRemove U m key.mKey

/-- Member `SlotMap::contains(const Key&)`. -/
def contains (m : SlotMap V) (key : SlotKey) : Bool :=
  if h : key.mIndex ≥ m.mNodes.length then false
  else decide (m.mNodes[key.mIndex].mGeneration = key.mGeneration)

/-- Member `SlotMap::contains(const TypedKey&)`. -/
def containsTyped (m : SlotMap V) (key : TypedKey) : Bool :=
  contains m key.mKey

/-- Member `SlotMap::end()`. -/
def end_ (this : Nat) (m : SlotMap V) : iterator :=
  { mPtr := this, mIndex := m.mNodes.length }

/-- Member `SlotMap::erase(iterator&)`; the result is the iterator after `++iter.mIndex`. -/
def erase (U : Undeclared) (this : Nat) (m : SlotMap V) (iter : iterator) :
    Outcome iterator (SlotMap V) :=
  if iter.mPtr ≠ this then
    .threw "Attempted to remove value from incorrect SlotMap" m
  else if U.ptr_eq_end iter.mPtr (end_ this m) then
    .threw "Erased called with end iterator" m
  else if h : iter.mIndex ≥ m.mNodes.length then
    .threw "Attempted to remove value with invalid index" m
  else
    let node := m.mNodes[iter.mIndex]
    .returned { mPtr := iter.mPtr, mIndex := iter.mIndex + 1 }
      { mNodes := freeNode m iter.mIndex node
        mFreeList := iter.mIndex
        mSize := (m.mSize + U32 - 1) % U32 }

/-- Member `SlotMap::erase(const_iterator&)`: as `erase(iterator&)` but `++mSize`. -/
def erase_const (U : Undeclared) (this : Nat) (m : SlotMap V) (iter : const_iterator) :
    Outcome const_iterator (SlotMap V) :=
  if iter.mPtr ≠ this then
    .threw "Attempted to remove value from incorrect SlotMap" m
  else if U.ptr_eq_cend iter.mPtr (end_ this m) then
    .threw "Erased called with end iterator" m
  else if h : iter.mIndex ≥ m.mNodes.length then
    .threw "Attempted to remove value with invalid index" m
  else
    let node := m.mNodes[iter.mIndex]
    .returned { mPtr := iter.mPtr, mIndex := iter.mIndex + 1 }
      { mNodes := freeNode m iter.mIndex node
        mFreeList := iter.mIndex
        mSize := (m.mSize + 1) % U32 }

/-- Member `SlotMap::find(const Key&)`. -/
def find (this : Nat) (m : SlotMap V) (key : SlotKey) : Outcome iterator (SlotMap V) :=
  if h : key.mIndex ≥ m.mNodes.length then
    .threw "Invalid key - invalid index" m
  else
    let node := m.mNodes[key.mIndex]
    if node.mGeneration ≠ key.mGeneration then
      .threw "Invalid key - object already destroyed" m
    else
      .returned { mPtr := this, mIndex := key.mIndex } m

/-- Member `SlotMap::find(const TypedKey&)`. -/
def findTyped (this : Nat) (m : SlotMap V) (key : TypedKey) :
    Outcome iterator (SlotMap V) :=
  find this m key.mKey

/-- Member `SlotMap::begin()`: `iterator(this, 0)`. -/
def begin (this : Nat) (_m : SlotMap V) : iterator :=
  { mPtr := this, mIndex := 0 }

/-- Member `SlotMap::operator[](const Key&)`: `return find(key);`. -/
def subscript (this : Nat) (m : SlotMap V) (key : SlotKey) : Outcome iterator (SlotMap V) :=
  find this m key

/-- Member `SlotMap::operator[](const TypedKey&)`: `return (*this)[key.mKey];`. -/
def subscriptTyped (this : Nat) (m : SlotMap V) (key : TypedKey) :
    Outcome iterator (SlotMap V) :=
  subscript this m key.mKey

end SlotMap

/-- Member `iterator::operator*`: `mPtr->mNodes[mIndex].uData`, with `m` the map that
`mPtr` points to.  `none` where the position is outside the vector or the node does not
hold a value. -/
def iterator.deref {V : Type} (m : SlotMap V) (it : iterator) : Option V :=
  match m.mNodes[it.mIndex]? with
  | some { u := .uData v, mGeneration := _, mHasData := _ } => some v
  | _ => none

/-- Member `const_iterator::operator*`. -/
def const_iterator.deref {V : Type} (m : SlotMap V) (it : const_iterator) : Option V :=
  match m.mNodes[it.mIndex]? with
  | some { u := .uData v, mGeneration := _, mHasData := _ } => some v
  | _ => none

/-- Friend `operator==` of `iterator`: same map and same position. -/
def iterator.eq (a b : iterator) : Bool :=
  decide (a.mPtr = b.mPtr) && decide (a.mIndex = b.mIndex)

/-- Member `iterator::GetKey`: `Key{map.mGeneration, mIndex}` with `map` the node
`mPtr->mNodes[mIndex]`; the position, a `size_t`, is converted to `unsigned`.  `none`
where the position is outside the vector. -/
def iterator.GetKey {V : Type} (m : SlotMap V) (it : iterator) : Option SlotKey :=
  match m.mNodes[it.mIndex]? with
  | some node => some (SlotKey.ctor node.mGeneration it.mIndex)
  | none => none

/-- Member `const_iterator::GetKey`. -/
def const_iterator.GetKey {V : Type} (m : SlotMap V) (it : const_iterator) :
    Option SlotKey :=
  match m.mNodes[it.mIndex]? with
  | some node => some (SlotKey.ctor node.mGeneration it.mIndex)
  | none => none

/-- The `while` loop of `iterator::operator++`, entered at position `mIndex`:
`while (!mPtr->mNodes[mIndex].mHasData) { if (mIndex >= size) return *this; mIndex++; }`.
The condition reads the node before the position is compared with the size, so at a
position outside the vector the outcome is `undefined`.  The first argument bounds the
number of rounds; `size + 1` rounds are never used up (`iterator.skipFree_fuel`). -/
def iterator.skipFree {V : Type} (m : SlotMap V) (mPtr : Nat) :
    Nat → Nat → Outcome iterator (SlotMap V)
  | 0, _ => .undefined
  | rounds + 1, mIndex =>
    match m.mNodes[mIndex]? with
    | none => .undefined
    | some node =>
      if node.mHasData = false then
        if mIndex ≥ m.mNodes.length then .returned { mPtr := mPtr, mIndex := mIndex } m
        else iterator.skipFree m mPtr rounds (mIndex + 1)
      else .returned { mPtr := mPtr, mIndex := mIndex } m

/-- Member `iterator::operator++()`: throws at or beyond the end, else `mIndex++` and the
loop over free nodes.  The result is the iterator after the call. -/
def iterator.increment {V : Type} (m : SlotMap V) (it : iterator) :
    Outcome iterator (SlotMap V) :=
  if it.mIndex ≥ m.mNodes.length then
    .threw "Incremented iterator on end" m
  else
    iterator.skipFree m it.mPtr (m.mNodes.length + 1) (it.mIndex + 1)

/-- The `while` loop of `const_iterator::operator++`: the loop of `iterator::operator++`
with the condition written `!mPtr->mNodes[mIndex].has_data`.  `Node` declares `mHasData`
and no member `has_data`; its value is the parameter `has_data`. -/
def const_iterator.skipFree {V : Type} (has_data : Node V → Bool) (m : SlotMap V)
    (mPtr : Nat) : Nat → Nat → Outcome const_iterator (SlotMap V)
  | 0, _ => .undefined
  | rounds + 1, mIndex =>
    match m.mNodes[mIndex]? with
    | none => .undefined
    | some node =>
      if has_data node = false then
        if mIndex ≥ m.mNodes.length then .returned { mPtr := mPtr, mIndex := mIndex } m
        else const_iterator.skipFree has_data m mPtr rounds (mIndex + 1)
      else .returned { mPtr := mPtr, mIndex := mIndex } m

/-- Member `const_iterator::operator++()`. -/
def const_iterator.increment {V : Type} (has_data : Node V → Bool) (m : SlotMap V)
    (it : const_iterator) : Outcome const_iterator (SlotMap V) :=
  if it.mIndex ≥ m.mNodes.length then
    .threw "Incremented iterator on end" m
  else
    const_iterator.skipFree has_data m it.mPtr (m.mNodes.length + 1) (it.mIndex + 1)

/-- Member `KeyHasher::operator()`, in `size_t` arithmetic: `seed` is the hash of the
generation, then `seed ^= hash(index) + 0x9e3779b9 + (seed<<6) + (seed>>2)`.  The
parameters are `std::hash<GenerationType>` and `std::hash<IndexType>`, whose results are
values of `size_t`. -/
def KeyHasher (hashGeneration hashIndex : Nat → Nat) (key : SlotKey) : Nat :=
  let seed := hashGeneration key.GetGeneration % SIZE_T
  seed ^^^ ((hashIndex key.GetIndex % SIZE_T + 0x9e3779b9 + (seed <<< 6) % SIZE_T +
    (seed >>> 2)) % SIZE_T)

/-- Member `TypedKeyHasher::operator()`: the same statements on a `TypedKey`. -/
def TypedKeyHasher (hashGeneration hashIndex : Nat → Nat) (key : TypedKey) : Nat :=
  let seed := hashGeneration key.GetGeneration % SIZE_T
  seed ^^^ ((hashIndex key.GetIndex % SIZE_T + 0x9e3779b9 + (seed <<< 6) % SIZE_T +
    (seed >>> 2)) % SIZE_T)

/-! ## Notions of the specification -/

/-- Validation rule as the specification words it: the index is within the backing
store, the slot at that index is occupied, and the stored generation equals the one of
the handle. -/
def validationRule {V : Type} (m : SlotMap V) (h : SlotKey) : Bool :=
  match m.mNodes[h.mIndex]? with
  | some node => node.mHasData && decide (node.mGeneration = h.mGeneration)
  | none => false

/-- States that a client reaches from a newly constructed map by calls of `insert` and by
calls of `remove` on keys of occupied slots.  A call of `remove` that throws leaves the
state as it is, so it adds no state.  A call of `remove` that returns although the slot
is free is left out: the key of such a call is not one the map handed out for a present
occupant (the constructor of `SlotKey` is documented "Do not do this unless you know
what you are doing"), and the theorems on C1 and C7 describe what the code does with it. -/
inductive Reachable {V : Type} : SlotMap V → Prop where
  | ctor (indeterminate : Nat) : Reachable (SlotMap.ctor indeterminate)
  | insert {m m1 : SlotMap V} {data : V} {h : TypedKey} :
      Reachable m → m.insert data = .returned h m1 → Reachable m1
  | remove {m m1 : SlotMap V} {key : SlotKey} :
      Reachable m → key.InRange → validationRule m key = true →
      m.remove key = .returned () m1 → Reachable m1

/-- What a call that changed the map did: `insert` returned the handle, or `remove`
removed the occupant that the key names. -/
inductive Event where
  | inserted (h : TypedKey)
  | removed (key : SlotKey)
  deriving DecidableEq, Repr

/-- The reachable states together with the calls that led to them, latest first: the
steps are those of `Reachable`. -/
inductive History {V : Type} : SlotMap V → List Event → Prop where
  | ctor (indeterminate : Nat) : History (SlotMap.ctor indeterminate) []
  | insert {m m1 : SlotMap V} {log : List Event} {data : V} {h : TypedKey} :
      History m log → m.insert data = .returned h m1 → History m1 (.inserted h :: log)
  | remove {m m1 : SlotMap V} {log : List Event} {key : SlotKey} :
      History m log → key.InRange → validationRule m key = true →
      m.remove key = .returned () m1 → History m1 (.removed key :: log)

/-- The calls that lead to `filled n`: `n` inserts. -/
def filledLog : Nat → List Event
  | 0 => []
  | n + 1 => .inserted { mKey := SlotKey.ctor 0 n } :: filledLog n

/-- The calls that lead to `oneFree (n + 1)`: an insert and the removal of its handle,
`n + 1` times over. -/
def cycleLog : Nat → List Event
  | 0 => [.removed { mGeneration := 0, mIndex := 0 },
          .inserted { mKey := { mGeneration := 0, mIndex := 0 } }]
  | n + 1 =>
    .removed { mGeneration := (n + 1) % U32, mIndex := 0 } ::
      .inserted { mKey := { mGeneration := (n + 1) % U32, mIndex := 0 } } :: cycleLog n

/-- Number of occupied slots. -/
def SlotMap.occupied {V : Type} (m : SlotMap V) : Nat :=
  m.mNodes.countP (fun node => node.mHasData)

/-- The indices `l` are the free list that starts at `head`: each is a 32 bit index of a
free node whose link is the next one, and the last link is `SIZE_MAX`. -/
def FreeChain {V : Type} (nodes : List (Node V)) : Nat → List Nat → Prop
  | head, [] => head = SIZE_MAX
  | head, i :: rest =>
    head = i ∧ i < U32 ∧
      ∃ next generation,
        nodes[i]? = some { u := .uNextFree next, mGeneration := generation, mHasData := false } ∧
        FreeChain nodes next rest

/-- Invariant of the reachable states: the free list is a chain of distinct free nodes,
every stored generation is a 32 bit value, and the flag `mHasData` of a node tells which
member of its union was written last. -/
structure Inv {V : Type} (m : SlotMap V) : Prop where
  chain : ∃ l : List Nat, l.Nodup ∧ FreeChain m.mNodes m.mFreeList l
  generations : ∀ node ∈ m.mNodes, node.mGeneration < U32
  flags : ∀ node ∈ m.mNodes, node.mHasData = true ↔ ∃ v, node.u = .uData v

/-- Well-formedness as the specification words it, the live count apart: the free list
that starts at the head is acyclic (`Nodup`), ends at `SIZE_MAX`, visits exactly the
free slots, and the number of occupied slots is the backing-store length minus the
number of slots on the free list. -/
def WellFormed {V : Type} (m : SlotMap V) : Prop :=
  ∃ l : List Nat, l.Nodup ∧ FreeChain m.mNodes m.mFreeList l ∧
    (∀ i node, m.mNodes[i]? = some node → (node.mHasData = false ↔ i ∈ l)) ∧
    m.occupied + l.length = m.mNodes.length

/-- The map after `insert`, `remove` of the returned handle and a second `remove`, with
the key `(1, 0)`: the slot is linked to itself. -/
def selfLinked : SlotMap Nat :=
  { mNodes := [{ u := .uNextFree 0, mGeneration := 2, mHasData := false }]
    mFreeList := 0
    mSize := 4294967295 }

/-- The map `selfLinked` after `insert(5)`: slot 0 is occupied, with generation 2, and
the free-list head still names it. -/
def selfLinkedReused : SlotMap Nat :=
  { mNodes := [{ u := .uData 5, mGeneration := 2, mHasData := true }]
    mFreeList := 0
    mSize := 0 }

/-- One call of a mutating member function. -/
inductive Op (V : Type) where
  | insert (data : V)
  | remove (key : SlotKey)
  | TryRemove (key : SlotKey)
  | erase (iter : iterator)
  | erase_const (iter : const_iterator)
  deriving DecidableEq, Repr

/-- State after one call, where the source defines it. -/
def SlotMap.step {V : Type} (U : Undeclared) (this : Nat) (m : SlotMap V) :
    Op V → Option (SlotMap V)
  | .insert data => (m.insert data).state?
  | .remove key => (m.remove key).state?
  | .TryRemove key => (m.TryRemove U key).state?
  | .erase iter => (m.erase U this iter).state?
  | .erase_const iter => (m.erase_const U this iter).state?

/-- State after a sequence of calls. -/
def SlotMap.run {V : Type} (U : Undeclared) (this : Nat) (m : SlotMap V) :
    List (Op V) → Option (SlotMap V)
  | [] => some m
  | op :: ops =>
    match m.step U this op with
    | some m1 => SlotMap.run U this m1 ops
    | none => none

/-- The call is a removal of slot `i` that succeeds: `remove` returns, `TryRemove`
returns true, `erase` returns. -/
def SlotMap.removes {V : Type} (U : Undeclared) (this : Nat) (m : SlotMap V) (i : Nat) :
    Op V → Bool
  | .insert _ => false
  | .remove key =>
    match m.remove key with
    | .returned _ _ => decide (key.mIndex = i)
    | _ => false
  | .TryRemove key =>
    match m.TryRemove U key with
    | .returned true _ => decide (key.mIndex = i)
    | _ => false
  | .erase iter =>
    match m.erase U this iter with
    | .returned _ _ => decide (iter.mIndex = i)
    | _ => false
  | .erase_const iter =>
    match m.erase_const U this iter with
    | .returned _ _ => decide (iter.mIndex = i)
    | _ => false

/-- Number of successful removals of slot `i` in a sequence of calls. -/
def SlotMap.removals {V : Type} (U : Undeclared) (this : Nat) (m : SlotMap V) (i : Nat) :
    List (Op V) → Nat
  | [] => 0
  | op :: ops =>
    match m.step U this op with
    | some m1 => (if m.removes U this i op then 1 else 0) + SlotMap.removals U this m1 i ops
    | none => 0

/-- The call is an `insert` that returns. -/
def SlotMap.inserted {V : Type} (m : SlotMap V) : Op V → Bool
  | .insert data =>
    match m.insert data with
    | .returned _ _ => true
    | _ => false
  | _ => false

/-- The call is a removal that succeeds, of whichever slot: `remove` returns, `TryRemove`
returns true, `erase` returns. -/
def SlotMap.removed {V : Type} (U : Undeclared) (this : Nat) (m : SlotMap V) : Op V → Bool
  | .insert _ => false
  | .remove key =>
    match m.remove key with
    | .returned _ _ => true
    | _ => false
  | .TryRemove key =>
    match m.TryRemove U key with
    | .returned true _ => true
    | _ => false
  | .erase iter =>
    match m.erase U this iter with
    | .returned _ _ => true
    | _ => false
  | .erase_const iter =>
    match m.erase_const U this iter with
    | .returned _ _ => true
    | _ => false

/-- Number of inserts performed in a sequence of calls. -/
def SlotMap.insertions {V : Type} (U : Undeclared) (this : Nat) (m : SlotMap V) :
    List (Op V) → Nat
  | [] => 0
  | op :: ops =>
    match m.step U this op with
    | some m1 => (if m.inserted op then 1 else 0) + SlotMap.insertions U this m1 ops
    | none => 0

/-- Number of removals that succeeded in a sequence of calls. -/
def SlotMap.removalsDone {V : Type} (U : Undeclared) (this : Nat) (m : SlotMap V) :
    List (Op V) → Nat
  | [] => 0
  | op :: ops =>
    match m.step U this op with
    | some m1 => (if m.removed U this op then 1 else 0) + SlotMap.removalsDone U this m1 ops
    | none => 0

/-- The call goes through a `const_iterator`. -/
def Op.isEraseConst {V : Type} : Op V → Bool
  | .erase_const _ => true
  | _ => false

/-- Reading of the undeclared expressions used in the examples: `key.index` reads
`mIndex`, and a map pointer never compares equal to an iterator. -/
def Undeclared.sample : Undeclared :=
  { key_index := fun key => key.mIndex
    ptr_eq_end := fun _ _ => false
    ptr_eq_cend := fun _ _ => false }

/-- Calls that recycle slot 0 `n` times when its generation is `g`: insert a value, then
remove the handle that `insert` has just returned. -/
def recycle : Nat → Nat → List (Op Nat)
  | _, 0 => []
  | g, n + 1 => .insert 0 :: .remove { mGeneration := g % U32, mIndex := 0 } :: recycle (g + 1) n

/-- A map of one free slot with generation `g`. -/
def oneFree (g size : Nat) : SlotMap Nat :=
  { mNodes := [{ u := .uNextFree SIZE_MAX, mGeneration := g % U32, mHasData := false }]
    mFreeList := 0
    mSize := size }

/-- A map of `n` occupied slots of generation 0 holding the value 0. -/
def filled (n size : Nat) : SlotMap Nat :=
  { mNodes := List.replicate n (Node.ctor 0 0)
    mFreeList := SIZE_MAX
    mSize := size }

/-- The map of the scenario after the values 10, 20 and 30 were inserted into a new map. -/
def scenarioABC (size : Nat) : SlotMap Nat :=
  { mNodes := [{ u := .uData 10, mGeneration := 0, mHasData := true },
               { u := .uData 20, mGeneration := 0, mHasData := true },
               { u := .uData 30, mGeneration := 0, mHasData := true }]
    mFreeList := SIZE_MAX
    mSize := size }

/-- The map of the scenario after the handle `(0, 1)` was removed. -/
def scenarioAC (size : Nat) : SlotMap Nat :=
  { mNodes := [{ u := .uData 10, mGeneration := 0, mHasData := true },
               { u := .uNextFree SIZE_MAX, mGeneration := 1, mHasData := false },
               { u := .uData 30, mGeneration := 0, mHasData := true }]
    mFreeList := 1
    mSize := size }

/-- The map of the scenario after the value 40 was inserted into the freed slot. -/
def scenarioADC (size : Nat) : SlotMap Nat :=
  { mNodes := [{ u := .uData 10, mGeneration := 0, mHasData := true },
               { u := .uData 40, mGeneration := 1, mHasData := true },
               { u := .uData 30, mGeneration := 0, mHasData := true }]
    mFreeList := SIZE_MAX
    mSize := size }

/-- A map of two slots whose slot 0 was removed: slot 0 is free, slot 1 holds 20. -/
def firstFree (size : Nat) : SlotMap Nat :=
  { mNodes := [{ u := .uNextFree SIZE_MAX, mGeneration := 1, mHasData := false },
               { u := .uData 20, mGeneration := 0, mHasData := true }]
    mFreeList := 0
    mSize := size }

/-- A map of `n` occupied slots of generation 0 followed by an occupied slot of
generation `g`. -/
def lastOccupied (n g size : Nat) : SlotMap Nat :=
  { mNodes := List.replicate n (Node.ctor 0 0) ++
      [{ u := .uData 0, mGeneration := g, mHasData := true }]
    mFreeList := SIZE_MAX
    mSize := size }

/-- The map `lastOccupied n` after its last slot was removed: the slot is free with
generation `g` and is the whole free list. -/
def lastFree (n g size : Nat) : SlotMap Nat :=
  { mNodes := List.replicate n (Node.ctor 0 0) ++
      [{ u := .uNextFree SIZE_MAX, mGeneration := g, mHasData := false }]
    mFreeList := n
    mSize := size }

/-- The map `filled n` after its slot 0 was removed and recycled once. -/
def filledRecycled (n size : Nat) : SlotMap Nat :=
  { mNodes := (List.replicate n (Node.ctor 0 0)).set 0
      { u := .uData 0, mGeneration := 1, mHasData := true }
    mFreeList := SIZE_MAX
    mSize := size }

/-! ## Lemmas on the free list and the reachable states -/

theorem FreeChain.set_of_not_mem {V : Type} {nodes : List (Node V)} {i : Nat} (x : Node V) :
    ∀ {l : List Nat} {head : Nat}, i ∉ l → FreeChain nodes head l →
      FreeChain (nodes.set i x) head l := by
  intro l
  induction l with
  | nil => intro head _ hc; exact hc
  | cons j rest ih =>
    intro head hni hc
    obtain ⟨h1, h2, next, g, hnode, hrest⟩ := hc
    have hij : i ≠ j := fun e => hni (by simp [e])
    have hir : i ∉ rest := fun e => hni (List.mem_cons_of_mem _ e)
    refine ⟨h1, h2, next, g, ?_, ih hir hrest⟩
    rw [List.getElem?_set_ne hij]
    exact hnode

theorem FreeChain.append {V : Type} {nodes : List (Node V)} (extra : List (Node V)) :
    ∀ {l : List Nat} {head : Nat}, FreeChain nodes head l →
      FreeChain (nodes ++ extra) head l := by
  intro l
  induction l with
  | nil => intro head hc; exact hc
  | cons j rest ih =>
    intro head hc
    obtain ⟨h1, h2, next, g, hnode, hrest⟩ := hc
    refine ⟨h1, h2, next, g, ?_, ih hrest⟩
    obtain ⟨hlt, _⟩ := List.getElem?_eq_some.mp hnode
    rw [List.getElem?_append_left hlt]
    exact hnode

theorem FreeChain.free_of_mem {V : Type} {nodes : List (Node V)} {i : Nat} :
    ∀ {l : List Nat} {head : Nat}, FreeChain nodes head l → i ∈ l →
      ∃ next g, nodes[i]? = some { u := .uNextFree next, mGeneration := g, mHasData := false } := by
  intro l
  induction l with
  | nil => intro head _ hm; cases hm
  | cons j rest ih =>
    intro head hc hm
    obtain ⟨_, _, next, g, hnode, hrest⟩ := hc
    rcases List.mem_cons.mp hm with e | hm1
    · exact ⟨next, g, e ▸ hnode⟩
    · exact ih hrest hm1

theorem Inv.ctor {V : Type} (indeterminate : Nat) :
    Inv (SlotMap.ctor indeterminate : SlotMap V) :=
  { chain := ⟨[], List.nodup_nil, rfl⟩
    generations := by intro node hnode; cases hnode
    flags := by intro node hnode; cases hnode }

/-- In a state that satisfies the invariant `insert` returns, with the key of the slot
it filled, and the invariant holds afterwards. -/
theorem Inv.insert {V : Type} {m : SlotMap V} (hinv : Inv m) (data : V) :
    ∃ h m1, m.insert data = .returned h m1 ∧ Inv m1 ∧
      (m.mFreeList = SIZE_MAX →
        h.mKey = { mGeneration := 0, mIndex := m.mNodes.length % U32 } ∧
        m1.mNodes = m.mNodes ++ [Node.ctor data 0]) ∧
      (m.mFreeList ≠ SIZE_MAX →
        ∃ next g, m.mNodes[m.mFreeList]? =
            some { u := .uNextFree next, mGeneration := g, mHasData := false } ∧
          h.mKey = { mGeneration := g, mIndex := m.mFreeList } ∧
          m1.mNodes = m.mNodes.set m.mFreeList
            { u := .uData data, mGeneration := g, mHasData := true }) := by
  obtain ⟨⟨l, hnd, hc⟩, hgen, hflags⟩ := hinv
  cases l with
  | nil =>
    have hhead : m.mFreeList = SIZE_MAX := hc
    have hins : m.insert data = .returned { mKey := SlotKey.ctor 0 m.mNodes.length }
        { mNodes := m.mNodes ++ [Node.ctor data 0]
          mFreeList := m.mFreeList
          mSize := (m.mSize + 1) % U32 } := by
      simp [SlotMap.insert, hhead]
    refine ⟨_, _, hins, ?_, ?_, ?_⟩
    · refine ⟨⟨[], List.nodup_nil, hhead⟩, ?_, ?_⟩
      · intro node hnode
        rcases List.mem_append.mp hnode with h1 | h1
        · exact hgen node h1
        · have : node = Node.ctor data 0 := by simpa using h1
          subst this
          simp [Node.ctor, U32]
      · intro node hnode
        rcases List.mem_append.mp hnode with h1 | h1
        · exact hflags node h1
        · have : node = Node.ctor data 0 := by simpa using h1
          subst this
          simp [Node.ctor]
    · intro _
      exact ⟨by simp [SlotKey.ctor, U32], rfl⟩
    · intro hne
      exact absurd hhead hne
  | cons i rest =>
    obtain ⟨h1, h2, next, g, hnode, hrest⟩ := hc
    have hne : m.mFreeList ≠ SIZE_MAX := by
      rw [h1]; unfold U32 at h2; unfold SIZE_MAX; omega
    have hg : g < U32 := hgen _ (List.getElem?_mem hnode)
    have hnode1 : m.mNodes[m.mFreeList]? =
        some { u := .uNextFree next, mGeneration := g, mHasData := false } := by
      rw [h1]; exact hnode
    have hins : m.insert data = .returned { mKey := SlotKey.ctor g m.mFreeList }
        { mNodes := m.mNodes.set m.mFreeList
            { u := .uData data, mGeneration := g, mHasData := true }
          mFreeList := next
          mSize := (m.mSize + 1) % U32 } := by
      simp [SlotMap.insert, hne, hnode1]
    have hkey : SlotKey.ctor g m.mFreeList = { mGeneration := g, mIndex := m.mFreeList } := by
      simp only [SlotKey.ctor, SlotKey.mk.injEq]
      exact ⟨Nat.mod_eq_of_lt hg, Nat.mod_eq_of_lt (h1 ▸ h2)⟩
    refine ⟨_, _, hins, ?_, ?_, ?_⟩
    · have hnd1 := List.nodup_cons.mp hnd
      refine ⟨⟨rest, hnd1.2, ?_⟩, ?_, ?_⟩
      · show FreeChain (m.mNodes.set m.mFreeList _) next rest
        rw [h1]
        exact FreeChain.set_of_not_mem _ hnd1.1 hrest
      · intro node hmem
        rcases List.mem_or_eq_of_mem_set hmem with h3 | h3
        · exact hgen node h3
        · subst h3; exact hg
      · intro node hmem
        rcases List.mem_or_eq_of_mem_set hmem with h3 | h3
        · exact hflags node h3
        · subst h3; simp
    · intro he; exact absurd he hne
    · intro _
      exact ⟨next, g, hnode1, hkey, rfl⟩

/-- Removing the key of an occupied slot keeps the invariant. -/
theorem Inv.remove {V : Type} {m m1 : SlotMap V} {key : SlotKey} (hinv : Inv m)
    (hrange : key.InRange) (hvalid : validationRule m key = true)
    (hrem : m.remove key = .returned () m1) : Inv m1 := by
  obtain ⟨⟨l, hnd, hc⟩, hgen, hflags⟩ := hinv
  unfold validationRule at hvalid
  cases hnode : m.mNodes[key.mIndex]? with
  | none => simp [hnode] at hvalid
  | some node =>
    simp only [hnode, Bool.and_eq_true, decide_eq_true_eq] at hvalid
    obtain ⟨hlt, hget⟩ := List.getElem?_eq_some.mp hnode
    have hnlt : ¬ key.mIndex ≥ m.mNodes.length := by omega
    have hgs : m.mNodes[key.mIndex].mGeneration = key.mGeneration := by
      rw [hget]; exact hvalid.2
    simp only [SlotMap.remove, hnlt, ↓reduceDIte, ne_eq, hgs, not_true_eq_false, ↓reduceIte,
      Outcome.returned.injEq, true_and] at hrem
    subst hrem
    have hnotmem : key.mIndex ∉ l := by
      intro hmem
      obtain ⟨next, g, hfree⟩ := FreeChain.free_of_mem hc hmem
      rw [hnode] at hfree
      have : node.mHasData = false := by
        have := Option.some.inj hfree
        rw [this]
      rw [this] at hvalid
      exact absurd hvalid.1 (by simp)
    refine ⟨⟨key.mIndex :: l, List.nodup_cons.mpr ⟨hnotmem, hnd⟩, ?_⟩, ?_, ?_⟩
    · refine ⟨rfl, hrange.2, m.mFreeList, (m.mNodes[key.mIndex].mGeneration + 1) % U32, ?_, ?_⟩
      · show (m.mNodes.set key.mIndex _)[key.mIndex]? = _
        rw [List.getElem?_set_self hlt]
      · exact FreeChain.set_of_not_mem _ hnotmem hc
    · intro n hmem
      rcases List.mem_or_eq_of_mem_set hmem with h3 | h3
      · exact hgen n h3
      · subst h3
        exact Nat.mod_lt _ (by unfold U32; omega)
    · intro n hmem
      rcases List.mem_or_eq_of_mem_set hmem with h3 | h3
      · exact hflags n h3
      · subst h3; simp

theorem Reachable.inv {V : Type} {m : SlotMap V} (hr : Reachable m) : Inv m := by
  induction hr with
  | ctor indeterminate => exact Inv.ctor indeterminate
  | insert _ hins ih =>
    obtain ⟨h, m1, hins1, hinv1, _⟩ := Inv.insert ih _
    rw [hins] at hins1
    cases hins1
    exact hinv1
  | remove _ hrange hvalid hrem ih => exact Inv.remove ih hrange hvalid hrem

theorem SlotMap.contains_eq_true_iff {V : Type} (m : SlotMap V) (h : SlotKey) :
    m.contains h = true ↔
      ∃ node, m.mNodes[h.mIndex]? = some node ∧ node.mGeneration = h.mGeneration := by
  unfold SlotMap.contains
  by_cases hlt : h.mIndex ≥ m.mNodes.length
  · have hnone : m.mNodes[h.mIndex]? = none := List.getElem?_eq_none hlt
    simp [hlt, hnone]
  · have hlt1 : h.mIndex < m.mNodes.length := by omega
    simp [hlt, List.getElem?_eq_getElem hlt1]

theorem SlotMap.contains_eq_false_iff {V : Type} (m : SlotMap V) (h : SlotKey) :
    m.contains h = false ↔
      ∀ node, m.mNodes[h.mIndex]? = some node → node.mGeneration ≠ h.mGeneration := by
  rw [← Bool.not_eq_true, SlotMap.contains_eq_true_iff]
  constructor
  · intro hn node hnode hg
    exact hn ⟨node, hnode, hg⟩
  · rintro hall ⟨node, hnode, hg⟩
    exact hall node hnode hg

theorem SlotMap.contains_of_validationRule {V : Type} (m : SlotMap V) (h : SlotKey)
    (hv : validationRule m h = true) : m.contains h = true := by
  rw [SlotMap.contains_eq_true_iff]
  unfold validationRule at hv
  cases hnode : m.mNodes[h.mIndex]? with
  | none => simp [hnode] at hv
  | some node =>
    simp only [hnode, Bool.and_eq_true, decide_eq_true_eq] at hv
    exact ⟨node, rfl, hv.2⟩

/-! ## C1: what `contains` checks -/

/-- C1 as stated fails.  A new map, `insert` of a value, then `remove` of the returned
handle `(generation 0, index 0)` leave slot 0 free with generation 1.  For the handle
`(generation 1, index 0)` the function `contains` returns true, while the slot is not
occupied: the validation rule of the specification rejects the handle. -/
theorem C1_counterexample :
    (SlotMap.ctor 0 : SlotMap Nat).insert 0 = .returned ⟨⟨0, 0⟩⟩ (filled 1 1) ∧
    (filled 1 1).remove ⟨0, 0⟩ = .returned () (oneFree 1 0) ∧
    (oneFree 1 0).mNodes[0]? =
      some { u := .uNextFree SIZE_MAX, mGeneration := 1, mHasData := false } ∧
    (oneFree 1 0).contains ⟨1, 0⟩ = true ∧
    validationRule (oneFree 1 0) ⟨1, 0⟩ = false := by
  decide

/-- C1, amended: for every slot map state and every handle h, `contains(h)` returns
true if and only if h.index is less than the backing-store length and the generation
stored in the slot at h.index equals h.generation; whether the slot is occupied is not
looked at.  A handle that passes the validation rule of the specification is contained,
and the `TypedKey` overload is `contains` of the wrapped key. -/
theorem C1_contains_iff_index_and_generation {V : Type} (m : SlotMap V) (h : SlotKey) :
    (m.contains h = true ↔
      h.mIndex < m.mNodes.length ∧
        ∃ node, m.mNodes[h.mIndex]? = some node ∧ node.mGeneration = h.mGeneration) ∧
    (validationRule m h = true → m.contains h = true) ∧
    (∀ k : TypedKey, m.containsTyped k = m.contains k.mKey) := by
  refine ⟨?_, ?_, fun _ => rfl⟩
  · rw [SlotMap.contains_eq_true_iff]
    constructor
    · rintro ⟨node, hnode, hg⟩
      exact ⟨(List.getElem?_eq_some.mp hnode).1, node, hnode, hg⟩
    · rintro ⟨_, hex⟩
      exact hex
  · exact SlotMap.contains_of_validationRule m h

/-! ## C2: the handle that `insert` returns is contained -/

theorem filled_reachable (n : Nat) : Reachable (filled n (n % U32)) := by
  induction n with
  | zero => exact Reachable.ctor 0
  | succ n ih =>
    refine @Reachable.insert _ _ _ 0 { mKey := SlotKey.ctor 0 n } ih ?_
    have e1 : List.replicate (n + 1) (Node.ctor (0 : Nat) 0) =
        List.replicate n (Node.ctor 0 0) ++ [Node.ctor 0 0] := List.replicate_succ' ..
    have e2 : (n % U32 + 1) % U32 = (n + 1) % U32 := by unfold U32; omega
    simp [SlotMap.insert, filled, e1, e2]

theorem filledRecycled_reachable (n : Nat) (hn : 0 < n) :
    Reachable (filledRecycled n (((n % U32 + U32 - 1) % U32 + 1) % U32)) := by
  have hlen : (0 : Nat) < (List.replicate n (Node.ctor (0 : Nat) 0)).length := by
    simpa using hn
  have h0 : (List.replicate n (Node.ctor (0 : Nat) 0))[0]? = some (Node.ctor 0 0) :=
    List.getElem?_replicate_of_lt hn
  have hrem : (filled n (n % U32)).remove ⟨0, 0⟩ = .returned ()
      { mNodes := (List.replicate n (Node.ctor (0 : Nat) 0)).set 0
          { u := .uNextFree SIZE_MAX, mGeneration := 1, mHasData := false }
        mFreeList := 0
        mSize := (n % U32 + U32 - 1) % U32 } := by
    have hg : (0 + 1) % U32 = 1 := by decide
    have hn0 : n ≠ 0 := by omega
    simp [SlotMap.remove, SlotMap.freeNode, filled, hn0, Node.ctor, hg]
  have hr1 := @Reachable.remove _ _ _ ⟨0, 0⟩ (filled_reachable n) (by decide)
    (by simp only [validationRule, filled]; rw [h0]; decide) hrem
  refine @Reachable.insert _ _ _ 0 { mKey := SlotKey.ctor 1 0 } hr1 ?_
  have hne : (0 : Nat) ≠ SIZE_MAX := by decide
  simp [SlotMap.insert, hne, hn, filledRecycled, List.set_set]

/-- C2 as stated fails when the index space is used up.  After 2^32 calls of `insert` on
a new map, `remove` of `(0, 0)` and one more `insert`, the map has 2^32 slots, an empty
free list, and generation 1 in slot 0.  The next `insert` appends slot 2^32 and returns
the handle `(0, 0)`, its index converted to `unsigned`; `contains` of that handle is
false. -/
theorem C2_counterexample :
    Reachable (filledRecycled U32 0) ∧
    (filledRecycled U32 0).insert 0 = .returned ⟨⟨0, 0⟩⟩
      { mNodes := (filledRecycled U32 0).mNodes ++ [Node.ctor 0 0]
        mFreeList := SIZE_MAX
        mSize := 1 } ∧
    SlotMap.containsTyped
      { mNodes := (filledRecycled U32 0).mNodes ++ [Node.ctor 0 0]
        mFreeList := SIZE_MAX
        mSize := 1 } ⟨⟨0, 0⟩⟩ = false := by
  have hpos : 0 < U32 := by decide
  refine ⟨?_, ?_, ?_⟩
  · have h := filledRecycled_reachable U32 hpos
    have hsz : ((U32 % U32 + U32 - 1) % U32 + 1) % U32 = 0 := by decide
    rw [hsz] at h
    exact h
  · have hk : SlotKey.ctor 0 U32 = ⟨0, 0⟩ := by decide
    have h1 : (0 + 1) % U32 = 1 := by decide
    simp only [SlotMap.insert, filledRecycled, ne_eq, not_true_eq_false, ↓reduceIte,
      List.length_set, List.length_replicate, hk, h1]
  · show SlotMap.contains _ _ = false
    rw [SlotMap.contains_eq_false_iff]
    intro node hnode
    have hlt : 0 < ((List.replicate U32 (Node.ctor (0 : Nat) 0)).set 0
        { u := .uData 0, mGeneration := 1, mHasData := true }).length := by
      rw [List.length_set, List.length_replicate]; exact hpos
    have hlt2 : 0 < (List.replicate U32 (Node.ctor (0 : Nat) 0)).length := by
      rw [List.length_replicate]; exact hpos
    simp only [filledRecycled] at hnode
    rw [List.getElem?_append_left hlt, List.getElem?_set_self hlt2] at hnode
    cases hnode
    decide

/-- C2, amended: for every slot map state reachable from the empty map by `insert` and
by `remove` of handles of occupied slots, whose backing-store length is below 2^32 (the
index space is not used up), and for every value v, `insert(v)` returns a handle h with
`contains(h) == true` in the state immediately after the insert. -/
theorem C2_insert_contains {V : Type} {m : SlotMap V} (hr : Reachable m)
    (hlen : m.mNodes.length < U32) (data : V) :
    ∃ h m1, m.insert data = .returned h m1 ∧ m1.containsTyped h = true := by
  obtain ⟨h, m1, hins, _, happ, hrec⟩ := Inv.insert hr.inv data
  refine ⟨h, m1, hins, ?_⟩
  show m1.contains h.mKey = true
  rw [SlotMap.contains_eq_true_iff]
  by_cases hhead : m.mFreeList = SIZE_MAX
  · obtain ⟨hkey, hnodes⟩ := happ hhead
    refine ⟨Node.ctor data 0, ?_, ?_⟩
    · rw [hnodes, hkey, Nat.mod_eq_of_lt hlen]
      simp
    · rw [hkey]
      show 0 % U32 = 0
      decide
  · obtain ⟨next, g, hnode, hkey, hnodes⟩ := hrec hhead
    refine ⟨{ u := .uData data, mGeneration := g, mHasData := true }, ?_, ?_⟩
    · rw [hnodes, hkey]
      exact List.getElem?_set_self (List.getElem?_eq_some.mp hnode).1
    · rw [hkey]

/-- Witness for C2: the newly constructed map. -/
theorem C2_insert_contains_witness :
    Reachable (SlotMap.ctor 0 : SlotMap Nat) ∧
    (SlotMap.ctor 0 : SlotMap Nat).mNodes.length < U32 ∧
    ∃ h m1, (SlotMap.ctor 0 : SlotMap Nat).insert 5 = .returned h m1 ∧
      m1.containsTyped h = true :=
  ⟨Reachable.ctor 0, by decide, C2_insert_contains (Reachable.ctor 0) (by decide) 5⟩

/-! ## How each call changes the slots -/

theorem SlotMap.freeNode_getElem? {V : Type} (m : SlotMap V) (idx : Nat)
    (hlt : idx < m.mNodes.length) (i : Nat) (node : Node V)
    (hnode : m.mNodes[i]? = some node) :
    ∃ node1, (m.freeNode idx m.mNodes[idx])[i]? = some node1 ∧
      node1.mGeneration =
        if idx = i then (node.mGeneration + 1) % U32 else node.mGeneration := by
  unfold SlotMap.freeNode
  by_cases hi : idx = i
  · subst hi
    have hget : m.mNodes[idx] = node := by
      have := List.getElem?_eq_getElem hlt
      rw [this] at hnode
      exact Option.some.inj hnode
    refine ⟨_, List.getElem?_set_self hlt, ?_⟩
    simp [hget]
  · refine ⟨node, ?_, by simp [hi]⟩
    rw [List.getElem?_set_ne hi]
    exact hnode

theorem SlotMap.insert_getElem? {V : Type} {m m1 : SlotMap V} {data : V} {h : TypedKey}
    (hins : m.insert data = .returned h m1) (i : Nat) (node : Node V)
    (hnode : m.mNodes[i]? = some node) :
    ∃ node1, m1.mNodes[i]? = some node1 ∧ node1.mGeneration = node.mGeneration := by
  unfold SlotMap.insert at hins
  split at hins
  · split at hins
    · rename_i next g flag hhead
      cases hins
      by_cases hi : m.mFreeList = i
      · subst hi
        rw [hhead] at hnode
        cases hnode
        exact ⟨_, List.getElem?_set_self (List.getElem?_eq_some.mp hhead).1, rfl⟩
      · refine ⟨node, ?_, rfl⟩
        show (m.mNodes.set m.mFreeList _)[i]? = some node
        rw [List.getElem?_set_ne hi]
        exact hnode
    · cases hins
  · cases hins
    refine ⟨node, ?_, rfl⟩
    show (m.mNodes ++ _)[i]? = some node
    rw [List.getElem?_append_left (List.getElem?_eq_some.mp hnode).1]
    exact hnode

theorem SlotMap.insert_cases {V : Type} (m : SlotMap V) (data : V) :
    m.insert data = .undefined ∨ ∃ h m1, m.insert data = .returned h m1 := by
  unfold SlotMap.insert
  split
  · split
    · exact Or.inr ⟨_, _, rfl⟩
    · exact Or.inl rfl
  · exact Or.inr ⟨_, _, rfl⟩

theorem SlotMap.remove_cases {V : Type} (m : SlotMap V) (key : SlotKey) :
    (m.contains key = false ∧
      ((key.mIndex ≥ m.mNodes.length ∧
          m.remove key = .threw "Invalid key - invalid index" m) ∨
        (key.mIndex < m.mNodes.length ∧
          m.remove key = .threw "Invalid key - object already destroyed" m))) ∨
    (m.contains key = true ∧ ∃ hlt : key.mIndex < m.mNodes.length,
      m.remove key = .returned ()
        { mNodes := m.freeNode key.mIndex m.mNodes[key.mIndex]
          mFreeList := key.mIndex
          mSize := (m.mSize + U32 - 1) % U32 }) := by
  unfold SlotMap.remove SlotMap.contains
  by_cases h1 : key.mIndex ≥ m.mNodes.length
  · exact Or.inl ⟨by simp [h1], Or.inl ⟨h1, by simp [h1]⟩⟩
  · by_cases h2 : m.mNodes[key.mIndex].mGeneration = key.mGeneration
    · exact Or.inr ⟨by simp [h1, h2], by omega, by simp [h1, h2]⟩
    · exact Or.inl ⟨by simp [h1, h2], Or.inr ⟨by omega, by simp [h1, h2]⟩⟩

theorem SlotMap.TryRemove_cases {V : Type} (U : Undeclared) (m : SlotMap V) (key : SlotKey) :
    (m.contains key = false ∧ m.TryRemove U key = .returned false m) ∨
    (m.contains key = true ∧ ∃ hlt : key.mIndex < m.mNodes.length,
      m.TryRemove U key = .returned true
        { mNodes := m.freeNode key.mIndex m.mNodes[key.mIndex]
          mFreeList := U.key_index key
          mSize := (m.mSize + U32 - 1) % U32 }) := by
  unfold SlotMap.TryRemove SlotMap.contains
  by_cases h1 : key.mIndex ≥ m.mNodes.length
  · exact Or.inl ⟨by simp [h1], by simp [h1]⟩
  · by_cases h2 : m.mNodes[key.mIndex].mGeneration = key.mGeneration
    · exact Or.inr ⟨by simp [h1, h2], by omega, by simp [h1, h2]⟩
    · exact Or.inl ⟨by simp [h1, h2], by simp [h1, h2]⟩

theorem SlotMap.erase_cases {V : Type} (U : Undeclared) (this : Nat) (m : SlotMap V)
    (iter : iterator) :
    (∃ what, m.erase U this iter = .threw what m) ∨
    (∃ hlt : iter.mIndex < m.mNodes.length,
      m.erase U this iter = .returned { mPtr := iter.mPtr, mIndex := iter.mIndex + 1 }
        { mNodes := m.freeNode iter.mIndex m.mNodes[iter.mIndex]
          mFreeList := iter.mIndex
          mSize := (m.mSize + U32 - 1) % U32 }) := by
  unfold SlotMap.erase
  by_cases h0 : iter.mPtr ≠ this
  · exact Or.inl ⟨"Attempted to remove value from incorrect SlotMap", by simp [h0]⟩
  · by_cases h1 : U.ptr_eq_end iter.mPtr (m.end_ this) = true
    · exact Or.inl ⟨"Erased called with end iterator", by simp [h0, h1]⟩
    · by_cases h2 : iter.mIndex ≥ m.mNodes.length
      · exact Or.inl ⟨"Attempted to remove value with invalid index", by simp [h0, h1, h2]⟩
      · exact Or.inr ⟨by omega, by simp [h0, h1, h2]⟩

theorem SlotMap.erase_const_cases {V : Type} (U : Undeclared) (this : Nat) (m : SlotMap V)
    (iter : const_iterator) :
    (∃ what, m.erase_const U this iter = .threw what m) ∨
    (∃ hlt : iter.mIndex < m.mNodes.length,
      m.erase_const U this iter =
        .returned { mPtr := iter.mPtr, mIndex := iter.mIndex + 1 }
          { mNodes := m.freeNode iter.mIndex m.mNodes[iter.mIndex]
            mFreeList := iter.mIndex
            mSize := (m.mSize + 1) % U32 }) := by
  unfold SlotMap.erase_const
  by_cases h0 : iter.mPtr ≠ this
  · exact Or.inl ⟨"Attempted to remove value from incorrect SlotMap", by simp [h0]⟩
  · by_cases h1 : U.ptr_eq_cend iter.mPtr (m.end_ this) = true
    · exact Or.inl ⟨"Erased called with end iterator", by simp [h0, h1]⟩
    · by_cases h2 : iter.mIndex ≥ m.mNodes.length
      · exact Or.inl ⟨"Attempted to remove value with invalid index", by simp [h0, h1, h2]⟩
      · exact Or.inr ⟨by omega, by simp [h0, h1, h2]⟩

theorem SlotMap.step_generation {V : Type} (U : Undeclared) (this : Nat) {m m1 : SlotMap V}
    {op : Op V} (hstep : m.step U this op = some m1) (i : Nat) (node : Node V)
    (hnode : m.mNodes[i]? = some node) :
    ∃ node1, m1.mNodes[i]? = some node1 ∧
      node1.mGeneration =
        if m.removes U this i op = true then (node.mGeneration + 1) % U32
        else node.mGeneration := by
  cases op with
  | insert data =>
    rcases SlotMap.insert_cases m data with hu | ⟨h, m2, hins⟩
    · simp [SlotMap.step, hu, Outcome.state?] at hstep
    · simp only [SlotMap.step, hins, Outcome.state?, Option.some.injEq] at hstep
      subst hstep
      obtain ⟨node1, h1, h2⟩ := SlotMap.insert_getElem? hins i node hnode
      exact ⟨node1, h1, by simp [SlotMap.removes, h2]⟩
  | remove key =>
    rcases SlotMap.remove_cases m key with ⟨_, ⟨_, hthrow⟩ | ⟨_, hthrow⟩⟩ | ⟨_, hlt, hret⟩
    · simp only [SlotMap.step, hthrow, Outcome.state?, Option.some.injEq] at hstep
      subst hstep
      exact ⟨node, hnode, by simp [SlotMap.removes, hthrow]⟩
    · simp only [SlotMap.step, hthrow, Outcome.state?, Option.some.injEq] at hstep
      subst hstep
      exact ⟨node, hnode, by simp [SlotMap.removes, hthrow]⟩
    · simp only [SlotMap.step, hret, Outcome.state?, Option.some.injEq] at hstep
      subst hstep
      obtain ⟨node1, h1, h2⟩ := SlotMap.freeNode_getElem? m key.mIndex hlt i node hnode
      exact ⟨node1, h1, by simp [SlotMap.removes, hret, h2]⟩
  | TryRemove key =>
    rcases SlotMap.TryRemove_cases U m key with ⟨_, hfalse⟩ | ⟨_, hlt, hret⟩
    · simp only [SlotMap.step, hfalse, Outcome.state?, Option.some.injEq] at hstep
      subst hstep
      exact ⟨node, hnode, by simp [SlotMap.removes, hfalse]⟩
    · simp only [SlotMap.step, hret, Outcome.state?, Option.some.injEq] at hstep
      subst hstep
      obtain ⟨node1, h1, h2⟩ := SlotMap.freeNode_getElem? m key.mIndex hlt i node hnode
      exact ⟨node1, h1, by simp [SlotMap.removes, hret, h2]⟩
  | erase iter =>
    rcases SlotMap.erase_cases U this m iter with ⟨what, hthrow⟩ | ⟨hlt, hret⟩
    · simp only [SlotMap.step, hthrow, Outcome.state?, Option.some.injEq] at hstep
      subst hstep
      exact ⟨node, hnode, by simp [SlotMap.removes, hthrow]⟩
    · simp only [SlotMap.step, hret, Outcome.state?, Option.some.injEq] at hstep
      subst hstep
      obtain ⟨node1, h1, h2⟩ := SlotMap.freeNode_getElem? m iter.mIndex hlt i node hnode
      exact ⟨node1, h1, by simp [SlotMap.removes, hret, h2]⟩
  | erase_const iter =>
    rcases SlotMap.erase_const_cases U this m iter with ⟨what, hthrow⟩ | ⟨hlt, hret⟩
    · simp only [SlotMap.step, hthrow, Outcome.state?, Option.some.injEq] at hstep
      subst hstep
      exact ⟨node, hnode, by simp [SlotMap.removes, hthrow]⟩
    · simp only [SlotMap.step, hret, Outcome.state?, Option.some.injEq] at hstep
      subst hstep
      obtain ⟨node1, h1, h2⟩ := SlotMap.freeNode_getElem? m iter.mIndex hlt i node hnode
      exact ⟨node1, h1, by simp [SlotMap.removes, hret, h2]⟩

theorem SlotMap.run_generation {V : Type} (U : Undeclared) (this : Nat) (i : Nat) :
    ∀ (ops : List (Op V)) {m m2 : SlotMap V} (node : Node V),
      m.run U this ops = some m2 → m.mNodes[i]? = some node →
      ∃ node2, m2.mNodes[i]? = some node2 ∧
        node2.mGeneration % U32 = (node.mGeneration + m.removals U this i ops) % U32 := by
  intro ops
  induction ops with
  | nil =>
    intro m m2 node hrun hnode
    simp only [SlotMap.run, Option.some.injEq] at hrun
    subst hrun
    exact ⟨node, hnode, by simp [SlotMap.removals]⟩
  | cons op ops ih =>
    intro m m2 node hrun hnode
    cases hstep : m.step U this op with
    | none => simp [SlotMap.run, hstep] at hrun
    | some m1 =>
      simp only [SlotMap.run, hstep] at hrun
      obtain ⟨node1, h1, hg1⟩ := SlotMap.step_generation U this hstep i node hnode
      obtain ⟨node2, h2, hg2⟩ := ih node1 hrun h1
      refine ⟨node2, h2, ?_⟩
      simp only [SlotMap.removals, hstep]
      rw [hg2, hg1]
      unfold U32
      split <;> omega

/-! ## C3: a removed handle is not contained again -/

theorem recycle_run (U : Undeclared) (this : Nat) (size : Nat) (hsize : size < U32) :
    ∀ (n g : Nat), (oneFree g size).run U this (recycle g n) = some (oneFree (g + n) size) := by
  intro n
  induction n with
  | zero => intro g; rfl
  | succ n ih =>
    intro g
    have hne : (0 : Nat) ≠ SIZE_MAX := by decide
    have hins : (oneFree g size).insert 0 = .returned { mKey := SlotKey.ctor (g % U32) 0 }
        { mNodes := [{ u := .uData 0, mGeneration := g % U32, mHasData := true }]
          mFreeList := SIZE_MAX
          mSize := (size + 1) % U32 } := by
      simp [SlotMap.insert, oneFree, hne]
    have hg : (g % U32 + 1) % U32 = (g + 1) % U32 := by unfold U32; omega
    have hs : ((size + 1) % U32 + U32 - 1) % U32 = size := by unfold U32 at *; omega
    have hrem : SlotMap.remove
        { mNodes := [{ u := Payload.uData (0 : Nat), mGeneration := g % U32, mHasData := true }]
          mFreeList := SIZE_MAX
          mSize := (size + 1) % U32 } { mGeneration := g % U32, mIndex := 0 } =
        .returned () (oneFree (g + 1) size) := by
      simp [SlotMap.remove, SlotMap.freeNode, oneFree, hg, hs]
    have h2 := ih (g + 1)
    have e : g + 1 + n = g + (n + 1) := by omega
    rw [e] at h2
    simp only [recycle, SlotMap.run, SlotMap.step, hins, Outcome.state?, hrem]
    exact h2

/-- C3 as stated fails once the 32 bit generation of the slot wraps around.  On a new map
`insert` returns the handle `(0, 0)`, which `remove` then removes.  After 2^32 - 1 further
rounds of `insert` and `remove` of the handle just returned, each of which recycles
slot 0, the generation stored in slot 0 is 0 again and `contains((0, 0))` is true. -/
theorem C3_counterexample :
    (SlotMap.ctor 0 : SlotMap Nat).insert 0 = .returned ⟨⟨0, 0⟩⟩ (filled 1 1) ∧
    (filled 1 1).remove ⟨0, 0⟩ = .returned () (oneFree 1 0) ∧
    (oneFree 1 0).contains ⟨0, 0⟩ = false ∧
    (oneFree 1 0).run Undeclared.sample 0 (recycle 1 (U32 - 1)) = some (oneFree U32 0) ∧
    (oneFree U32 0).contains ⟨0, 0⟩ = true := by
  refine ⟨by decide, by decide, by decide, ?_, by decide⟩
  have h := recycle_run Undeclared.sample 0 0 (by decide) (U32 - 1) 1
  have e : 1 + (U32 - 1) = U32 := by decide
  rw [e] at h
  exact h

/-- C3, amended: once a handle h that `contains` accepts has been removed by a successful
`remove`, `TryRemove` or `erase`, `contains(h)` is false in the state right after the
removal and in every state reached afterwards by a sequence of `insert`, `remove`,
`TryRemove` and `erase` calls in which fewer than 2^32 - 1 further removals of the slot
h.index succeed, however the slot is recycled in between. -/
theorem C3_removed_handle_not_contained {V : Type} (U : Undeclared) (this : Nat)
    {m m1 m2 : SlotMap V} {h : SlotKey} {op : Op V} {ops : List (Op V)}
    (hcontains : m.contains h = true)
    (hstep : m.step U this op = some m1)
    (hremoved : m.removes U this h.mIndex op = true)
    (hrun : m1.run U this ops = some m2)
    (hfew : m1.removals U this h.mIndex ops < U32 - 1) :
    m1.contains h = false ∧ m2.contains h = false := by
  obtain ⟨node, hnode, hgen⟩ := (SlotMap.contains_eq_true_iff m h).mp hcontains
  obtain ⟨node1, hnode1, hgen1⟩ := SlotMap.step_generation U this hstep h.mIndex node hnode
  rw [if_pos hremoved, hgen] at hgen1
  obtain ⟨node2, hnode2, hgen2⟩ := SlotMap.run_generation U this h.mIndex ops node1 hrun hnode1
  rw [hgen1] at hgen2
  constructor
  · rw [SlotMap.contains_eq_false_iff]
    intro n hn
    rw [hnode1] at hn
    cases hn
    rw [hgen1]
    unfold U32
    omega
  · rw [SlotMap.contains_eq_false_iff]
    intro n hn
    rw [hnode2] at hn
    cases hn
    intro heq
    rw [heq] at hgen2
    unfold U32 at hgen2 hfew
    omega

/-- Witness for C3: one occupied slot is removed and then recycled by an `insert`. -/
theorem C3_removed_handle_not_contained_witness :
    (filled 1 1).contains ⟨0, 0⟩ = true ∧
    (filled 1 1).step Undeclared.sample 0 (.remove ⟨0, 0⟩) = some (oneFree 1 0) ∧
    (filled 1 1).removes Undeclared.sample 0 0 (.remove ⟨0, 0⟩) = true ∧
    (oneFree 1 0).run Undeclared.sample 0 [.insert 7] =
      some { mNodes := [{ u := .uData 7, mGeneration := 1, mHasData := true }]
             mFreeList := SIZE_MAX
             mSize := 1 } ∧
    (oneFree 1 0).removals Undeclared.sample 0 0 [.insert 7] < U32 - 1 ∧
    (oneFree 1 0).contains ⟨0, 0⟩ = false ∧
    SlotMap.contains
      { mNodes := [{ u := Payload.uData 7, mGeneration := 1, mHasData := true }]
        mFreeList := SIZE_MAX
        mSize := 1 } ⟨0, 0⟩ = false :=
  ⟨by decide, by decide, by decide, by decide, by decide,
    @C3_removed_handle_not_contained Nat Undeclared.sample 0 (filled 1 1) (oneFree 1 0)
      _ ⟨0, 0⟩ (.remove ⟨0, 0⟩) [.insert 7]
      (by decide) (by decide) (by decide) (by decide) (by decide)⟩

/-! ## C4: other calls leave a contained handle and its value alone -/

theorem SlotMap.freeNode_contains {V : Type} (m : SlotMap V) {idx : Nat}
    (hlt : idx < m.mNodes.length) (size head : Nat) {h : SlotKey} (hne : idx ≠ h.mIndex)
    (hcontains : m.contains h = true) (this : Nat) :
    SlotMap.contains
        { mNodes := m.freeNode idx m.mNodes[idx], mFreeList := head, mSize := size } h = true ∧
      iterator.deref
        { mNodes := m.freeNode idx m.mNodes[idx], mFreeList := head, mSize := size }
        { mPtr := this, mIndex := h.mIndex } =
      iterator.deref m { mPtr := this, mIndex := h.mIndex } := by
  have hsame : (m.freeNode idx m.mNodes[idx])[h.mIndex]? = m.mNodes[h.mIndex]? := by
    unfold SlotMap.freeNode
    exact List.getElem?_set_ne hne
  constructor
  · rw [SlotMap.contains_eq_true_iff] at hcontains ⊢
    show ∃ node, (m.freeNode idx m.mNodes[idx])[h.mIndex]? = some node ∧ _
    rw [hsame]
    exact hcontains
  · unfold iterator.deref
    show (match (m.freeNode idx m.mNodes[idx])[h.mIndex]? with
      | some { u := .uData v, mGeneration := _, mHasData := _ } => some v
      | _ => none) = _
    rw [hsame]

/-- C4 as stated fails in a state that is reached through a `remove` of a free slot.
On a new map `insert(0)`, `remove((0, 0))`, `remove((1, 0))` and `insert(5)` all return;
the last returns the handle `(2, 0)`, `contains((2, 0))` is true and slot 0 holds the
value 5, but the free-list head still names slot 0.  The next `insert` takes slot 0 for
free: it reads the next-free member of the node that holds the value 5, so the source
defines no result, and its next statement constructs the new value in the slot where the
value of the handle `(2, 0)` is stored. -/
theorem C4_counterexample :
    (SlotMap.ctor 0 : SlotMap Nat).run Undeclared.sample 0
      [.insert 0, .remove ⟨0, 0⟩, .remove ⟨1, 0⟩] = some selfLinked ∧
    selfLinked.insert 5 = .returned ⟨⟨2, 0⟩⟩ selfLinkedReused ∧
    selfLinkedReused.contains ⟨2, 0⟩ = true ∧
    iterator.deref selfLinkedReused { mPtr := 0, mIndex := 0 } = some 5 ∧
    selfLinkedReused.mFreeList = 0 ∧
    selfLinkedReused.mNodes[0]? = some { u := .uData 5, mGeneration := 2, mHasData := true } ∧
    selfLinkedReused.insert 7 = .undefined := by
  decide

/-- C4, amended: a handle h remains valid until its own occupant is removed.  For every
state reachable from the empty map by `insert` and by `remove` of handles of occupied
slots in which `contains(h)` is true: `insert` of any value returns, `contains(h)` is
still true afterwards and a value stored at h.index is still stored there; after a
successful `remove` or `TryRemove` of any handle k whose index differs from h.index,
`contains(h)` is still true and what an iterator at h.index dereferences to is unchanged. -/
theorem C4_other_calls_keep_handle {V : Type} (U : Undeclared) (this : Nat) {m : SlotMap V}
    (hr : Reachable m) {h : SlotKey} (hcontains : m.contains h = true) :
    (∀ data : V, ∃ h1 m1, m.insert data = .returned h1 m1 ∧ m1.contains h = true ∧
      ∀ v, iterator.deref m { mPtr := this, mIndex := h.mIndex } = some v →
        iterator.deref m1 { mPtr := this, mIndex := h.mIndex } = some v) ∧
    (∀ (k : SlotKey) (m1 : SlotMap V), k.mIndex ≠ h.mIndex → m.remove k = .returned () m1 →
      m1.contains h = true ∧
      iterator.deref m1 { mPtr := this, mIndex := h.mIndex } =
        iterator.deref m { mPtr := this, mIndex := h.mIndex }) ∧
    (∀ (k : SlotKey) (m1 : SlotMap V), k.mIndex ≠ h.mIndex →
      m.TryRemove U k = .returned true m1 →
      m1.contains h = true ∧
      iterator.deref m1 { mPtr := this, mIndex := h.mIndex } =
        iterator.deref m { mPtr := this, mIndex := h.mIndex }) := by
  refine ⟨?_, ?_, ?_⟩
  · intro data
    obtain ⟨h1, m1, hins, _, happ, hrec⟩ := Inv.insert hr.inv data
    refine ⟨h1, m1, hins, ?_, ?_⟩
    · obtain ⟨node, hnode, hgen⟩ := (SlotMap.contains_eq_true_iff m h).mp hcontains
      obtain ⟨node1, hnode1, hgen1⟩ := SlotMap.insert_getElem? hins h.mIndex node hnode
      exact (SlotMap.contains_eq_true_iff m1 h).mpr ⟨node1, hnode1, hgen1.trans hgen⟩
    · intro v hv
      unfold iterator.deref at hv ⊢
      simp only at hv ⊢
      by_cases hhead : m.mFreeList = SIZE_MAX
      · obtain ⟨_, hnodes⟩ := happ hhead
        cases hnode : m.mNodes[h.mIndex]? with
        | none => simp [hnode] at hv
        | some node =>
          rw [hnodes, List.getElem?_append_left (List.getElem?_eq_some.mp hnode).1]
          exact hv
      · obtain ⟨next, g, hfree, _, hnodes⟩ := hrec hhead
        by_cases hi : m.mFreeList = h.mIndex
        · rw [← hi, hfree] at hv
          simp at hv
        · rw [hnodes, List.getElem?_set_ne hi]
          exact hv
  · intro k m1 hne hrem
    rcases SlotMap.remove_cases m k with ⟨_, ⟨_, hthrow⟩ | ⟨_, hthrow⟩⟩ | ⟨_, hlt, hret⟩
    · rw [hthrow] at hrem; cases hrem
    · rw [hthrow] at hrem; cases hrem
    · rw [hret] at hrem
      cases hrem
      exact SlotMap.freeNode_contains m hlt _ _ hne hcontains this
  · intro k m1 hne hrem
    rcases SlotMap.TryRemove_cases U m k with ⟨_, hfalse⟩ | ⟨_, hlt, hret⟩
    · rw [hfalse] at hrem; cases hrem
    · rw [hret] at hrem
      cases hrem
      exact SlotMap.freeNode_contains m hlt _ _ hne hcontains this

/-- Witness for C4: a map of two occupied slots and the handle of slot 0. -/
theorem C4_other_calls_keep_handle_witness :
    Reachable (filled 2 2) ∧ (filled 2 2).contains ⟨0, 0⟩ = true ∧
    ((∀ data : Nat, ∃ h1 m1, (filled 2 2).insert data = .returned h1 m1 ∧
        m1.contains ⟨0, 0⟩ = true ∧
        ∀ v, iterator.deref (filled 2 2) { mPtr := 0, mIndex := 0 } = some v →
          iterator.deref m1 { mPtr := 0, mIndex := 0 } = some v) ∧
      (∀ (k : SlotKey) (m1 : SlotMap Nat), k.mIndex ≠ 0 →
        (filled 2 2).remove k = .returned () m1 →
        m1.contains ⟨0, 0⟩ = true ∧
        iterator.deref m1 { mPtr := 0, mIndex := 0 } =
          iterator.deref (filled 2 2) { mPtr := 0, mIndex := 0 }) ∧
      (∀ (k : SlotKey) (m1 : SlotMap Nat), k.mIndex ≠ 0 →
        (filled 2 2).TryRemove Undeclared.sample k = .returned true m1 →
        m1.contains ⟨0, 0⟩ = true ∧
        iterator.deref m1 { mPtr := 0, mIndex := 0 } =
          iterator.deref (filled 2 2) { mPtr := 0, mIndex := 0 })) :=
  ⟨filled_reachable 2, by decide,
    @C4_other_calls_keep_handle Nat Undeclared.sample 0 (filled 2 2) (filled_reachable 2)
      ⟨0, 0⟩ (by decide)⟩

/-! ## C5: the live count -/

theorem SlotMap.insert_mSize {V : Type} {m m1 : SlotMap V} {data : V} {h : TypedKey}
    (hins : m.insert data = .returned h m1) : m1.mSize = (m.mSize + 1) % U32 := by
  unfold SlotMap.insert at hins
  split at hins
  · split at hins
    · cases hins; rfl
    · cases hins
  · cases hins; rfl

theorem SlotMap.step_mSize {V : Type} (U : Undeclared) (this : Nat) {m m1 : SlotMap V}
    {op : Op V} (hop : op.isEraseConst = false) (hstep : m.step U this op = some m1) :
    (m1.mSize + if m.removed U this op = true then 1 else 0) % U32 =
      (m.mSize + if m.inserted op = true then 1 else 0) % U32 ∧
    (m.mSize < U32 → m1.mSize < U32) := by
  have hpos : 0 < U32 := by decide
  cases op with
  | insert data =>
    rcases SlotMap.insert_cases m data with hu | ⟨h, m2, hins⟩
    · simp [SlotMap.step, hu, Outcome.state?] at hstep
    · simp only [SlotMap.step, hins, Outcome.state?, Option.some.injEq] at hstep
      subst hstep
      have hsz := SlotMap.insert_mSize hins
      refine ⟨?_, fun _ => hsz ▸ Nat.mod_lt _ hpos⟩
      simp [SlotMap.removed, SlotMap.inserted, hins, hsz]
  | remove key =>
    rcases SlotMap.remove_cases m key with ⟨_, ⟨_, hthrow⟩ | ⟨_, hthrow⟩⟩ | ⟨_, hlt, hret⟩
    · simp only [SlotMap.step, hthrow, Outcome.state?, Option.some.injEq] at hstep
      subst hstep
      exact ⟨by simp [SlotMap.removed, SlotMap.inserted, hthrow], fun h => h⟩
    · simp only [SlotMap.step, hthrow, Outcome.state?, Option.some.injEq] at hstep
      subst hstep
      exact ⟨by simp [SlotMap.removed, SlotMap.inserted, hthrow], fun h => h⟩
    · simp only [SlotMap.step, hret, Outcome.state?, Option.some.injEq] at hstep
      subst hstep
      refine ⟨?_, fun _ => Nat.mod_lt _ hpos⟩
      simp only [SlotMap.removed, SlotMap.inserted, hret, if_true]
      unfold U32
      simp only [Bool.false_eq_true, if_false]
      omega
  | TryRemove key =>
    rcases SlotMap.TryRemove_cases U m key with ⟨_, hfalse⟩ | ⟨_, hlt, hret⟩
    · simp only [SlotMap.step, hfalse, Outcome.state?, Option.some.injEq] at hstep
      subst hstep
      exact ⟨by simp [SlotMap.removed, SlotMap.inserted, hfalse], fun h => h⟩
    · simp only [SlotMap.step, hret, Outcome.state?, Option.some.injEq] at hstep
      subst hstep
      refine ⟨?_, fun _ => Nat.mod_lt _ hpos⟩
      simp only [SlotMap.removed, SlotMap.inserted, hret, if_true]
      unfold U32
      simp only [Bool.false_eq_true, if_false]
      omega
  | erase iter =>
    rcases SlotMap.erase_cases U this m iter with ⟨what, hthrow⟩ | ⟨hlt, hret⟩
    · simp only [SlotMap.step, hthrow, Outcome.state?, Option.some.injEq] at hstep
      subst hstep
      exact ⟨by simp [SlotMap.removed, SlotMap.inserted, hthrow], fun h => h⟩
    · simp only [SlotMap.step, hret, Outcome.state?, Option.some.injEq] at hstep
      subst hstep
      refine ⟨?_, fun _ => Nat.mod_lt _ hpos⟩
      simp only [SlotMap.removed, SlotMap.inserted, hret, if_true]
      unfold U32
      simp only [Bool.false_eq_true, if_false]
      omega
  | erase_const iter => simp [Op.isEraseConst] at hop

/-- What the code does keep of the live count: over a sequence of calls none of which goes
through a `const_iterator`, `mSize` at the end is `mSize` at the start plus the number of
inserts minus the number of removals that succeeded, in 32 bit arithmetic. -/
theorem SlotMap.run_mSize {V : Type} (U : Undeclared) (this : Nat) :
    ∀ (ops : List (Op V)) {m m2 : SlotMap V}, (∀ op ∈ ops, op.isEraseConst = false) →
      m.run U this ops = some m2 →
      (m2.mSize + m.removalsDone U this ops) % U32 =
        (m.mSize + m.insertions U this ops) % U32 ∧
      (m.mSize < U32 → m2.mSize < U32) := by
  intro ops
  induction ops with
  | nil =>
    intro m m2 _ hrun
    simp only [SlotMap.run, Option.some.injEq] at hrun
    subst hrun
    exact ⟨rfl, fun h => h⟩
  | cons op ops ih =>
    intro m m2 hops hrun
    cases hstep : m.step U this op with
    | none => simp [SlotMap.run, hstep] at hrun
    | some m1 =>
      simp only [SlotMap.run, hstep] at hrun
      obtain ⟨h1, hb1⟩ := SlotMap.step_mSize U this (hops op (List.mem_cons_self _ _)) hstep
      obtain ⟨h2, hb2⟩ := ih (fun o ho => hops o (List.mem_cons_of_mem _ ho)) hrun
      refine ⟨?_, fun h => hb2 (hb1 h)⟩
      simp only [SlotMap.removalsDone, SlotMap.insertions, hstep]
      unfold U32 at h1 h2 ⊢
      omega

/-- C5 fails on the code, in two places.  `Size()` of a newly constructed map is whatever
the member `mSize`, which no constructor initialises, happens to hold: 7 in the first
line.  And `erase` through a `const_iterator` increments `mSize`: after one `insert` and
one such `erase` on a map that starts with `mSize == 0`, `Size()` is 2, while the number
of inserts minus the number of removals is 0. -/
theorem C5_Size_diverges :
    (SlotMap.ctor 7 : SlotMap Nat).Size = 7 ∧
    (SlotMap.ctor 0 : SlotMap Nat).run Undeclared.sample 0
        [.insert 0, .erase_const { mPtr := 0, mIndex := 0 }] =
      some (oneFree 1 2) ∧
    (oneFree 1 2).Size = 2 := by
  decide

/-! ## C6: `find` -/

/-- C6 as stated fails: `find` raises.  On a newly constructed map `find((0, 0))` throws
"Invalid key - invalid index", and on the map whose slot 0 has generation 1 it throws
"Invalid key - object already destroyed". -/
theorem C6_counterexample :
    (SlotMap.ctor 0 : SlotMap Nat).find 0 ⟨0, 0⟩ =
      .threw "Invalid key - invalid index" (SlotMap.ctor 0) ∧
    (oneFree 1 0).find 0 ⟨0, 0⟩ =
      .threw "Invalid key - object already destroyed" (oneFree 1 0) := by
  decide

/-- C6, amended: for every slot map state and every handle h, `find(h)` throws "invalid
index" when h.index is at or beyond the backing-store length, throws "object already
destroyed" when the index is in range and the generation of the slot differs from
h.generation, and otherwise returns the iterator positioned at h.index, which
dereferences to the value the slot holds; in all three cases the map is unchanged.  The
`TypedKey` overload forwards to it. -/
theorem C6_find_throws_or_returns_position {V : Type} (this : Nat) (m : SlotMap V)
    (h : SlotKey) :
    ((m.contains h = false ∧
        ((h.mIndex ≥ m.mNodes.length ∧
            m.find this h = .threw "Invalid key - invalid index" m) ∨
          (h.mIndex < m.mNodes.length ∧
            m.find this h = .threw "Invalid key - object already destroyed" m))) ∨
      (m.contains h = true ∧
        m.find this h = .returned { mPtr := this, mIndex := h.mIndex } m ∧
        ∀ node v, m.mNodes[h.mIndex]? = some node → node.u = .uData v →
          iterator.deref m { mPtr := this, mIndex := h.mIndex } = some v)) ∧
    (∀ k : TypedKey, m.findTyped this k = m.find this k.mKey) := by
  refine ⟨?_, fun _ => rfl⟩
  unfold SlotMap.find SlotMap.contains
  by_cases h1 : h.mIndex ≥ m.mNodes.length
  · exact Or.inl ⟨by simp [h1], Or.inl ⟨h1, by simp [h1]⟩⟩
  · by_cases h2 : m.mNodes[h.mIndex].mGeneration = h.mGeneration
    · refine Or.inr ⟨by simp [h1, h2], by simp [h1, h2], ?_⟩
      intro node v hnode hu
      unfold iterator.deref
      simp only [hnode]
      cases node with
      | mk u g flag =>
        simp only at hu
        subst hu
        rfl
    · exact Or.inl ⟨by simp [h1, h2], Or.inr ⟨by omega, by simp [h1, h2]⟩⟩

/-! ## C7: when `remove` throws -/

/-- C7 as stated fails.  In the state after `insert` and `remove` on a new map, slot 0 is
free with generation 1.  The handle `(1, 0)` is not valid under the validation rule, the
slot is not occupied, yet `remove((1, 0))` does not throw: it frees the slot again, links
it to itself and decrements `mSize` from 0 to 2^32 - 1. -/
theorem C7_counterexample :
    (SlotMap.ctor 0 : SlotMap Nat).insert 0 = .returned ⟨⟨0, 0⟩⟩ (filled 1 1) ∧
    (filled 1 1).remove ⟨0, 0⟩ = .returned () (oneFree 1 0) ∧
    validationRule (oneFree 1 0) ⟨1, 0⟩ = false ∧
    (oneFree 1 0).remove ⟨1, 0⟩ = .returned ()
      { mNodes := [{ u := .uNextFree 0, mGeneration := 2, mHasData := false }]
        mFreeList := 0
        mSize := 4294967295 } := by
  decide

/-- C7, amended: for every slot map state and every handle h, `remove(h)` throws if and
only if h.index is out of range ("invalid index") or the generation of the slot differs
from h.generation ("object already destroyed"), that is if and only if `contains(h)` is
false; whether the slot is occupied is not checked.  When it throws, the map state
(slots, free-list head, live count) is exactly the state before the call.  A handle
that is valid under the validation rule is removed without an error. -/
theorem C7_remove_throws_iff_not_contained {V : Type} (m : SlotMap V) (h : SlotKey) :
    ((m.contains h = false ∧
        ((h.mIndex ≥ m.mNodes.length ∧
            m.remove h = .threw "Invalid key - invalid index" m) ∨
          (h.mIndex < m.mNodes.length ∧
            m.remove h = .threw "Invalid key - object already destroyed" m))) ∨
      (m.contains h = true ∧ ∃ m1, m.remove h = .returned () m1)) ∧
    (validationRule m h = true → ∃ m1, m.remove h = .returned () m1) ∧
    (∀ k : TypedKey, m.removeTyped k = m.remove k.mKey) := by
  have hcases : (m.contains h = false ∧
        ((h.mIndex ≥ m.mNodes.length ∧
            m.remove h = .threw "Invalid key - invalid index" m) ∨
          (h.mIndex < m.mNodes.length ∧
            m.remove h = .threw "Invalid key - object already destroyed" m))) ∨
      (m.contains h = true ∧ ∃ m1, m.remove h = .returned () m1) := by
    rcases SlotMap.remove_cases m h with hthrow | ⟨hc, _, hret⟩
    · exact Or.inl hthrow
    · exact Or.inr ⟨hc, _, hret⟩
  refine ⟨hcases, ?_, fun _ => rfl⟩
  intro hv
  rcases hcases with ⟨hc, _⟩ | ⟨_, hret⟩
  · rw [SlotMap.contains_of_validationRule m h hv] at hc
    cases hc
  · exact hret

/-! ## C8: removing twice -/

/-- C8: for every state, reachable or not, and every handle h with `contains(h)` true,
the first `remove(h)` returns and the second one throws "Invalid key - object already
destroyed", not "invalid index", in the very state the first call produced, which it
leaves unchanged. -/
theorem C8_remove_twice {V : Type} (m : SlotMap V) (h : SlotKey)
    (hcontains : m.contains h = true) :
    ∃ m1, m.remove h = .returned () m1 ∧
      m1.remove h = .threw "Invalid key - object already destroyed" m1 := by
  rcases SlotMap.remove_cases m h with ⟨hc, _⟩ | ⟨_, hlt, hret⟩
  · rw [hcontains] at hc; cases hc
  · refine ⟨_, hret, ?_⟩
    obtain ⟨node, hnode, hgen⟩ := (SlotMap.contains_eq_true_iff m h).mp hcontains
    have hget : m.mNodes[h.mIndex] = node := by
      rw [List.getElem?_eq_getElem hlt] at hnode
      exact Option.some.inj hnode
    have hne : (node.mGeneration + 1) % U32 ≠ h.mGeneration := by
      rw [hgen]; unfold U32; omega
    simp [SlotMap.remove, SlotMap.freeNode, hget, hne, hlt]

/-- Witness for C8: the map of one occupied slot and its handle. -/
theorem C8_remove_twice_witness :
    (filled 1 1).contains ⟨0, 0⟩ = true ∧
    ∃ m1, (filled 1 1).remove ⟨0, 0⟩ = .returned () m1 ∧
      m1.remove ⟨0, 0⟩ = .threw "Invalid key - object already destroyed" m1 :=
  ⟨by decide, C8_remove_twice (filled 1 1) ⟨0, 0⟩ (by decide)⟩

/-! ## C9: `TryRemove` against `remove` -/

/-- C9 on the code: `TryRemove` never throws and returns true exactly when `remove`
returns; when it returns false the state is unchanged.  When it returns true the slots
and the live count are those that `remove` produces, but the free-list head is the value
of `key.index`, an expression that names no member of `SlotKey`, where `remove` stores
`key.mIndex`. -/
theorem C9_TryRemove_state {V : Type} (U : Undeclared) (m : SlotMap V) (h : SlotKey) :
    ((m.contains h = false ∧ (∃ what, m.remove h = .threw what m) ∧
        m.TryRemove U h = .returned false m) ∨
      (m.contains h = true ∧ ∃ m1, m.remove h = .returned () m1 ∧
        m.TryRemove U h = .returned true
          { mNodes := m1.mNodes, mFreeList := U.key_index h, mSize := m1.mSize } ∧
        m1.mFreeList = h.mIndex)) ∧
    (∀ k : TypedKey, m.TryRemoveTyped U k = m.TryRemove U k.mKey) := by
  refine ⟨?_, fun _ => rfl⟩
  rcases SlotMap.remove_cases m h with ⟨hc, hthrow⟩ | ⟨hc, hlt, hret⟩
  · refine Or.inl ⟨hc, ?_, ?_⟩
    · rcases hthrow with ⟨_, ht⟩ | ⟨_, ht⟩
      · exact ⟨_, ht⟩
      · exact ⟨_, ht⟩
    · rcases SlotMap.TryRemove_cases U m h with ⟨_, hfalse⟩ | ⟨hc1, _⟩
      · exact hfalse
      · rw [hc] at hc1; cases hc1
  · refine Or.inr ⟨hc, _, hret, ?_, rfl⟩
    rcases SlotMap.TryRemove_cases U m h with ⟨hc1, _⟩ | ⟨_, _, htrue⟩
    · rw [hc] at hc1; cases hc1
    · exact htrue

/-! ## C10: a recycled slot gets the next generation -/

/-- C10, amended: for every state, reachable or not, and every handle h of 32 bit members
with `contains(h)` true, `remove(h)` returns and the next `insert` returns a handle h1
with h1.index == h.index and h1.generation == (h.generation + 1) modulo 2^32, which is
h.generation + 1 unless h.generation is 2^32 - 1; h1 differs from h, `contains(h1)` is
true and `contains(h)` is false. -/
theorem C10_recycled_generation {V : Type} (m : SlotMap V) (h : SlotKey) (data : V)
    (hrange : h.InRange) (hcontains : m.contains h = true) :
    ∃ m1 h1 m2, m.remove h = .returned () m1 ∧ m1.insert data = .returned h1 m2 ∧
      h1.mKey.mIndex = h.mIndex ∧
      h1.mKey.mGeneration = (h.mGeneration + 1) % U32 ∧
      (h.mGeneration + 1 < U32 → h1.mKey.mGeneration = h.mGeneration + 1) ∧
      h1.mKey ≠ h ∧ m2.containsTyped h1 = true ∧ m2.contains h = false := by
  rcases SlotMap.remove_cases m h with ⟨hc, _⟩ | ⟨_, hlt, hret⟩
  · rw [hcontains] at hc; cases hc
  · obtain ⟨node, hnode, hgen⟩ := (SlotMap.contains_eq_true_iff m h).mp hcontains
    have hget : m.mNodes[h.mIndex] = node := by
      rw [List.getElem?_eq_getElem hlt] at hnode
      exact Option.some.inj hnode
    have hhead : h.mIndex ≠ SIZE_MAX := by
      have := hrange.2
      unfold U32 at this
      unfold SIZE_MAX
      omega
    have hfree : (m.freeNode h.mIndex m.mNodes[h.mIndex])[h.mIndex]? =
        some { u := .uNextFree m.mFreeList, mGeneration := (h.mGeneration + 1) % U32,
               mHasData := false } := by
      unfold SlotMap.freeNode
      rw [List.getElem?_set_self hlt, hget, hgen]
    have hkey : SlotKey.ctor ((h.mGeneration + 1) % U32) h.mIndex =
        { mGeneration := (h.mGeneration + 1) % U32, mIndex := h.mIndex } := by
      simp only [SlotKey.ctor, SlotKey.mk.injEq]
      exact ⟨Nat.mod_mod _ _, Nat.mod_eq_of_lt hrange.2⟩
    have hins : SlotMap.insert
        { mNodes := m.freeNode h.mIndex m.mNodes[h.mIndex]
          mFreeList := h.mIndex
          mSize := (m.mSize + U32 - 1) % U32 } data =
        .returned { mKey := { mGeneration := (h.mGeneration + 1) % U32, mIndex := h.mIndex } }
          { mNodes := (m.freeNode h.mIndex m.mNodes[h.mIndex]).set h.mIndex
              { u := .uData data, mGeneration := (h.mGeneration + 1) % U32, mHasData := true }
            mFreeList := m.mFreeList
            mSize := ((m.mSize + U32 - 1) % U32 + 1) % U32 } := by
      simp only [SlotMap.insert, ne_eq, hhead, not_false_eq_true, ↓reduceIte, hfree, hkey]
    have hlt1 : h.mIndex < (m.freeNode h.mIndex m.mNodes[h.mIndex]).length := by
      unfold SlotMap.freeNode
      rw [List.length_set]
      exact hlt
    have hnew : ((m.freeNode h.mIndex m.mNodes[h.mIndex]).set h.mIndex
        { u := .uData data, mGeneration := (h.mGeneration + 1) % U32,
          mHasData := true })[h.mIndex]? =
        some { u := .uData data, mGeneration := (h.mGeneration + 1) % U32,
               mHasData := true } :=
      List.getElem?_set_self hlt1
    have hne : (h.mGeneration + 1) % U32 ≠ h.mGeneration := by unfold U32; omega
    refine ⟨_, _, _, hret, hins, rfl, rfl, ?_, ?_, ?_, ?_⟩
    · intro hsmall
      exact Nat.mod_eq_of_lt hsmall
    · intro heq
      have := congrArg SlotKey.mGeneration heq
      exact hne this
    · show SlotMap.contains _ _ = true
      rw [SlotMap.contains_eq_true_iff]
      exact ⟨_, hnew, rfl⟩
    · rw [SlotMap.contains_eq_false_iff]
      intro n hn
      have hn1 : ((m.freeNode h.mIndex m.mNodes[h.mIndex]).set h.mIndex
          { u := .uData data, mGeneration := (h.mGeneration + 1) % U32,
            mHasData := true })[h.mIndex]? = some n := hn
      rw [hnew] at hn1
      cases hn1
      exact hne

/-- Witness for C10: the map of one occupied slot and its handle. -/
theorem C10_recycled_generation_witness :
    SlotKey.InRange ⟨0, 0⟩ ∧ (filled 1 1).contains ⟨0, 0⟩ = true ∧
    ∃ m1 h1 m2, (filled 1 1).remove ⟨0, 0⟩ = .returned () m1 ∧
      m1.insert 9 = .returned h1 m2 ∧
      h1.mKey.mIndex = 0 ∧
      h1.mKey.mGeneration = (0 + 1) % U32 ∧
      (0 + 1 < U32 → h1.mKey.mGeneration = 0 + 1) ∧
      h1.mKey ≠ ⟨0, 0⟩ ∧ m2.containsTyped h1 = true ∧ m2.contains ⟨0, 0⟩ = false :=
  ⟨by decide, by decide, C10_recycled_generation (filled 1 1) ⟨0, 0⟩ 9 (by decide) (by decide)⟩

/-! ## C11: handles returned by `insert` are new -/

theorem History.reachable {V : Type} {m : SlotMap V} {log : List Event}
    (hist : History m log) : Reachable m := by
  induction hist with
  | ctor indeterminate => exact Reachable.ctor indeterminate
  | insert _ hins ih => exact Reachable.insert ih hins
  | remove _ hrange hvalid hrem ih => exact Reachable.remove ih hrange hvalid hrem

/-- While no generation has wrapped and the index space is not used up, every handle that
`insert` has returned names a slot whose generation is larger than the one of the
handle, or equal with the slot occupied. -/
theorem History.issued {V : Type} {m : SlotMap V} {log : List Event}
    (hist : History m log)
    (hnowrap : ∀ key, Event.removed key ∈ log → key.mGeneration + 1 < U32)
    (hlen : m.mNodes.length ≤ U32) :
    ∀ h, Event.inserted h ∈ log →
      ∃ node, m.mNodes[h.mKey.mIndex]? = some node ∧
        (h.mKey.mGeneration < node.mGeneration ∨
          (h.mKey.mGeneration = node.mGeneration ∧ node.mHasData = true)) := by
  induction hist with
  | ctor indeterminate => intro h hmem; cases hmem
  | @insert m m1 log data h0 hist hins ih =>
    obtain ⟨h1, m2, hins1, _, happ, hrec⟩ := Inv.insert hist.reachable.inv data
    rw [hins] at hins1
    cases hins1
    have hnowrap1 : ∀ key, Event.removed key ∈ log → key.mGeneration + 1 < U32 :=
      fun key hk => hnowrap key (List.mem_cons_of_mem _ hk)
    by_cases hhead : m.mFreeList = SIZE_MAX
    · obtain ⟨hkey, hnodes⟩ := happ hhead
      have hlen1 : m.mNodes.length < U32 := by
        rw [hnodes, List.length_append] at hlen
        simp only [List.length_singleton] at hlen
        omega
      intro h hmem
      rcases List.mem_cons.mp hmem with heq | hold
      · cases heq
        refine ⟨Node.ctor data 0, ?_, Or.inr ⟨?_, rfl⟩⟩
        · rw [hnodes, hkey, Nat.mod_eq_of_lt hlen1]
          simp
        · rw [hkey]
          show 0 = 0 % U32
          decide
      · obtain ⟨node, hnode, hcmp⟩ := ih hnowrap1 (by omega) h hold
        refine ⟨node, ?_, hcmp⟩
        rw [hnodes, List.getElem?_append_left (List.getElem?_eq_some.mp hnode).1]
        exact hnode
    · obtain ⟨next, g, hfree, hkey, hnodes⟩ := hrec hhead
      have hlen1 : m.mNodes.length ≤ U32 := by
        rw [hnodes, List.length_set] at hlen
        exact hlen
      have hflt : m.mFreeList < m.mNodes.length := (List.getElem?_eq_some.mp hfree).1
      intro h hmem
      rcases List.mem_cons.mp hmem with heq | hold
      · cases heq
        refine ⟨{ u := .uData data, mGeneration := g, mHasData := true }, ?_, Or.inr ⟨?_, rfl⟩⟩
        · rw [hnodes, hkey]
          exact List.getElem?_set_self hflt
        · rw [hkey]
      · obtain ⟨node, hnode, hcmp⟩ := ih hnowrap1 hlen1 h hold
        by_cases hi : m.mFreeList = h.mKey.mIndex
        · refine ⟨{ u := .uData data, mGeneration := g, mHasData := true }, ?_, Or.inl ?_⟩
          · rw [hnodes, ← hi]
            exact List.getElem?_set_self hflt
          · rw [← hi, hfree] at hnode
            cases hnode
            rcases hcmp with hlt | ⟨_, hocc⟩
            · exact hlt
            · cases hocc
        · refine ⟨node, ?_, hcmp⟩
          rw [hnodes, List.getElem?_set_ne hi]
          exact hnode
  | @remove m m1 log key hist hrange hvalid hrem ih =>
    have hnowrap1 : ∀ k, Event.removed k ∈ log → k.mGeneration + 1 < U32 :=
      fun k hk => hnowrap k (List.mem_cons_of_mem _ hk)
    have hkeygen : key.mGeneration + 1 < U32 := hnowrap key (List.mem_cons_self _ _)
    rcases SlotMap.remove_cases m key with ⟨_, ⟨_, hthrow⟩ | ⟨_, hthrow⟩⟩ | ⟨hc, hlt, hret⟩
    · rw [hthrow] at hrem; cases hrem
    · rw [hthrow] at hrem; cases hrem
    · rw [hret] at hrem
      cases hrem
      obtain ⟨nodek, hnodek, hgenk⟩ := (SlotMap.contains_eq_true_iff m key).mp hc
      have hgetk : m.mNodes[key.mIndex] = nodek := by
        rw [List.getElem?_eq_getElem hlt] at hnodek
        exact Option.some.inj hnodek
      have hlen1 : m.mNodes.length ≤ U32 := by
        have : (m.freeNode key.mIndex m.mNodes[key.mIndex]).length ≤ U32 := hlen
        unfold SlotMap.freeNode at this
        rw [List.length_set] at this
        exact this
      intro h hmem
      have hold : Event.inserted h ∈ log := by
        rcases List.mem_cons.mp hmem with heq | hold
        · cases heq
        · exact hold
      obtain ⟨node, hnode, hcmp⟩ := ih hnowrap1 hlen1 h hold
      by_cases hi : key.mIndex = h.mKey.mIndex
      · refine ⟨{ u := .uNextFree m.mFreeList,
                  mGeneration := (m.mNodes[key.mIndex].mGeneration + 1) % U32,
                  mHasData := false }, ?_, Or.inl ?_⟩
        · show (m.freeNode key.mIndex m.mNodes[key.mIndex])[h.mKey.mIndex]? = _
          unfold SlotMap.freeNode
          rw [← hi]
          exact List.getElem?_set_self hlt
        · rw [← hi, hnodek] at hnode
          cases hnode
          show h.mKey.mGeneration < (m.mNodes[key.mIndex].mGeneration + 1) % U32
          rw [hgetk, hgenk, Nat.mod_eq_of_lt hkeygen]
          rcases hcmp with hlt1 | ⟨heq1, _⟩
          · omega
          · omega
      · refine ⟨node, ?_, hcmp⟩
        show (m.freeNode key.mIndex m.mNodes[key.mIndex])[h.mKey.mIndex]? = _
        unfold SlotMap.freeNode
        rw [List.getElem?_set_ne hi]
        exact hnode

theorem filled_history (n : Nat) : History (filled n (n % U32)) (filledLog n) := by
  induction n with
  | zero => exact History.ctor 0
  | succ n ih =>
    refine @History.insert _ _ _ _ 0 { mKey := SlotKey.ctor 0 n } ih ?_
    have e1 : List.replicate (n + 1) (Node.ctor (0 : Nat) 0) =
        List.replicate n (Node.ctor 0 0) ++ [Node.ctor 0 0] := List.replicate_succ' ..
    have e2 : (n % U32 + 1) % U32 = (n + 1) % U32 := by unfold U32; omega
    simp [SlotMap.insert, filled, e1, e2]

theorem filledLog_first (n : Nat) (hn : 0 < n) :
    Event.inserted { mKey := { mGeneration := 0, mIndex := 0 } } ∈ filledLog n := by
  induction n with
  | zero => omega
  | succ n ih =>
    cases n with
    | zero => exact List.mem_cons_self _ _
    | succ k => exact List.mem_cons_of_mem _ (ih (by omega))

theorem cycle_history (n : Nat) : History (oneFree (n + 1) 0) (cycleLog n) := by
  induction n with
  | zero =>
    have h1 : History (filled 1 1) [.inserted { mKey := { mGeneration := 0, mIndex := 0 } }] :=
      @History.insert Nat _ _ _ 0 _ (History.ctor 0) (by decide)
    exact @History.remove Nat _ _ _ ⟨0, 0⟩ h1 (by decide) (by decide) (by decide)
  | succ n ih =>
    have hne : (0 : Nat) ≠ SIZE_MAX := by decide
    have hpos : 0 < U32 := by decide
    have hins : (oneFree (n + 1) 0).insert 0 =
        .returned { mKey := { mGeneration := (n + 1) % U32, mIndex := 0 } }
          { mNodes := [{ u := .uData 0, mGeneration := (n + 1) % U32, mHasData := true }]
            mFreeList := SIZE_MAX
            mSize := 1 } := by
      have h1 : (0 + 1) % U32 = 1 := by decide
      simp [SlotMap.insert, oneFree, hne, SlotKey.ctor, h1]
    have hg : ((n + 1) % U32 + 1) % U32 = (n + 1 + 1) % U32 := by unfold U32; omega
    have hs : (1 + U32 - 1) % U32 = 0 := by decide
    have hrem : SlotMap.remove
        { mNodes := [{ u := Payload.uData (0 : Nat), mGeneration := (n + 1) % U32,
                       mHasData := true }]
          mFreeList := SIZE_MAX
          mSize := 1 } { mGeneration := (n + 1) % U32, mIndex := 0 } =
        .returned () (oneFree (n + 1 + 1) 0) := by
      simp [SlotMap.remove, SlotMap.freeNode, oneFree, hg, hs]
    have h2 := History.insert ih hins
    refine History.remove h2 ⟨Nat.mod_lt _ hpos, hpos⟩ ?_ hrem
    simp [validationRule]

theorem cycleLog_first (n : Nat) :
    Event.inserted { mKey := { mGeneration := 0, mIndex := 0 } } ∈ cycleLog n := by
  induction n with
  | zero => exact List.mem_cons_of_mem _ (List.mem_cons_self _ _)
  | succ n ih => exact List.mem_cons_of_mem _ (List.mem_cons_of_mem _ ih)

/-- C11 as stated fails in two ways.  First, after 2^32 calls of `insert` the map has 2^32
occupied slots; the next `insert` appends slot 2^32 and returns the handle `(0, 0)`, its
index converted to `unsigned`: the handle of the occupied slot 0, and the handle that the
first `insert` returned.  Second, on a map of one slot, after the first handle `(0, 0)`
was removed and the slot was recycled and removed 2^32 - 1 more times, the generation of
slot 0 is 0 again and `insert` returns `(0, 0)` a second time. -/
theorem C11_counterexample :
    (History (filled U32 0) (filledLog U32) ∧
      Event.inserted { mKey := { mGeneration := 0, mIndex := 0 } } ∈ filledLog U32 ∧
      (filled U32 0).mNodes[0]? =
        some { u := .uData 0, mGeneration := 0, mHasData := true } ∧
      (filled U32 0).insert 0 = .returned { mKey := { mGeneration := 0, mIndex := 0 } }
        { mNodes := (filled U32 0).mNodes ++ [Node.ctor 0 0]
          mFreeList := SIZE_MAX
          mSize := 1 }) ∧
    (History (oneFree U32 0) (cycleLog (U32 - 1)) ∧
      Event.inserted { mKey := { mGeneration := 0, mIndex := 0 } } ∈ cycleLog (U32 - 1) ∧
      (oneFree U32 0).insert 0 = .returned { mKey := { mGeneration := 0, mIndex := 0 } }
        { mNodes := [{ u := .uData 0, mGeneration := 0, mHasData := true }]
          mFreeList := SIZE_MAX
          mSize := 1 }) := by
  have hpos : 0 < U32 := by decide
  refine ⟨⟨?_, filledLog_first U32 hpos, ?_, ?_⟩, ⟨?_, cycleLog_first _, by decide⟩⟩
  · have h := filled_history U32
    have hsz : U32 % U32 = 0 := by decide
    rw [hsz] at h
    exact h
  · have h0 : (List.replicate U32 (Node.ctor (0 : Nat) 0))[0]? = some (Node.ctor 0 0) :=
      List.getElem?_replicate_of_lt hpos
    show (List.replicate U32 (Node.ctor (0 : Nat) 0))[0]? = _
    rw [h0]
    rfl
  · have hk : SlotKey.ctor 0 U32 = ⟨0, 0⟩ := by decide
    have h1 : (0 + 1) % U32 = 1 := by decide
    simp only [SlotMap.insert, filled, ne_eq, not_true_eq_false, ↓reduceIte,
      List.length_replicate, hk, h1]
  · have h := cycle_history (U32 - 1)
    have e : U32 - 1 + 1 = U32 := by decide
    rw [e] at h
    exact h

/-- C11, amended: in every state reachable from the empty map by `insert` and by `remove`
of handles of occupied slots (`History`), in which the backing-store length is below
2^32 and no removed handle had the generation 2^32 - 1 (no generation has wrapped),
`insert` returns a handle that differs from the handle (slot generation, index) of every
slot that was occupied before the insert, and that differs from every handle previously
returned by `insert` on this map. -/
theorem C11_insert_returns_new_handle {V : Type} {m : SlotMap V} {log : List Event}
    (hist : History m log)
    (hnowrap : ∀ key, Event.removed key ∈ log → key.mGeneration + 1 < U32)
    (hlen : m.mNodes.length < U32) (data : V) :
    ∃ h m1, m.insert data = .returned h m1 ∧
      (∀ i node, m.mNodes[i]? = some node → node.mHasData = true →
        h.mKey ≠ { mGeneration := node.mGeneration, mIndex := i }) ∧
      Event.inserted h ∉ log := by
  obtain ⟨h, m1, hins, _, happ, hrec⟩ := Inv.insert hist.reachable.inv data
  have hissued := History.issued hist hnowrap (by omega) h
  refine ⟨h, m1, hins, ?_, ?_⟩
  · intro i node hnode hocc heq
    by_cases hhead : m.mFreeList = SIZE_MAX
    · obtain ⟨hkey, _⟩ := happ hhead
      rw [hkey, Nat.mod_eq_of_lt hlen] at heq
      have hi := congrArg SlotKey.mIndex heq
      have := (List.getElem?_eq_some.mp hnode).1
      simp only at hi
      omega
    · obtain ⟨next, g, hfree, hkey, _⟩ := hrec hhead
      rw [hkey] at heq
      have hi := congrArg SlotKey.mIndex heq
      simp only at hi
      rw [hi, hnode] at hfree
      cases hfree
      cases hocc
  · intro hmem
    obtain ⟨node, hnode, hcmp⟩ := hissued hmem
    by_cases hhead : m.mFreeList = SIZE_MAX
    · obtain ⟨hkey, _⟩ := happ hhead
      rw [hkey, Nat.mod_eq_of_lt hlen] at hnode
      have := (List.getElem?_eq_some.mp hnode).1
      simp only at this
      omega
    · obtain ⟨next, g, hfree, hkey, _⟩ := hrec hhead
      rw [hkey] at hnode hcmp
      simp only at hnode hcmp
      rw [hfree] at hnode
      cases hnode
      rcases hcmp with hlt | ⟨_, hocc⟩
      · simp only at hlt
        omega
      · cases hocc

/-- Witness for C11: the map after one `insert`. -/
theorem C11_insert_returns_new_handle_witness :
    History (filled 1 1) (filledLog 1) ∧
    (∀ key, Event.removed key ∈ filledLog 1 → key.mGeneration + 1 < U32) ∧
    (filled 1 1).mNodes.length < U32 ∧
    ∃ h m1, (filled 1 1).insert 5 = .returned h m1 ∧
      (∀ i node, (filled 1 1).mNodes[i]? = some node → node.mHasData = true →
        h.mKey ≠ { mGeneration := node.mGeneration, mIndex := i }) ∧
      Event.inserted h ∉ filledLog 1 :=
  ⟨filled_history 1, by intro key hk; simp [filledLog] at hk, by decide,
    C11_insert_returns_new_handle (filled_history 1)
      (by intro key hk; simp [filledLog] at hk) (by decide) 5⟩

/-! ## C12: iterating from `begin()` to `end()` -/

/-- The rounds that `operator++` grants its loop are never used up: once there are more
rounds than positions left up to and including the size, one more round changes
nothing. -/
theorem iterator.skipFree_fuel {V : Type} (m : SlotMap V) (mPtr : Nat) :
    ∀ (rounds mIndex : Nat), m.mNodes.length + 1 ≤ rounds + mIndex →
      iterator.skipFree m mPtr rounds mIndex = iterator.skipFree m mPtr (rounds + 1) mIndex := by
  intro rounds
  induction rounds with
  | zero =>
    intro mIndex hle
    have hnone : m.mNodes[mIndex]? = none := List.getElem?_eq_none (by omega)
    simp [iterator.skipFree, hnone]
  | succ rounds ih =>
    intro mIndex hle
    cases hnode : m.mNodes[mIndex]? with
    | none => simp [iterator.skipFree, hnode]
    | some node =>
      have hlt : mIndex < m.mNodes.length := (List.getElem?_eq_some.mp hnode).1
      have hnot : ¬ mIndex ≥ m.mNodes.length := by omega
      have hrec := ih (mIndex + 1) (by omega)
      rw [iterator.skipFree, iterator.skipFree]
      simp only [hnode, hnot, if_false]
      rw [hrec]

/-- When every slot from `mIndex` on is free, the loop of `operator++` runs into the read
of `mNodes[size]`, outside the vector. -/
theorem iterator.skipFree_all_free {V : Type} (m : SlotMap V) (mPtr : Nat) :
    ∀ (rounds mIndex : Nat),
      (∀ j node, mIndex ≤ j → m.mNodes[j]? = some node → node.mHasData = false) →
      iterator.skipFree m mPtr rounds mIndex = .undefined := by
  intro rounds
  induction rounds with
  | zero => intro mIndex _; rfl
  | succ rounds ih =>
    intro mIndex hfree
    cases hnode : m.mNodes[mIndex]? with
    | none => simp [iterator.skipFree, hnode]
    | some node =>
      have hlt : mIndex < m.mNodes.length := (List.getElem?_eq_some.mp hnode).1
      have hnot : ¬ mIndex ≥ m.mNodes.length := by omega
      have hf : node.mHasData = false := hfree mIndex node (Nat.le_refl _) hnode
      rw [iterator.skipFree]
      simp only [hnode, hf, hnot, if_true, if_false]
      exact ih (mIndex + 1) (fun j n hj hn => hfree j n (by omega) hn)

/-- The loop of `operator++` stops at the first occupied slot at or after `mIndex`. -/
theorem iterator.skipFree_found {V : Type} (m : SlotMap V) (mPtr : Nat) (q : Nat)
    (node : Node V) (hq : m.mNodes[q]? = some node) (hocc : node.mHasData = true) :
    ∀ (rounds mIndex : Nat), mIndex ≤ q → q < rounds + mIndex →
      (∀ j n, mIndex ≤ j → j < q → m.mNodes[j]? = some n → n.mHasData = false) →
      iterator.skipFree m mPtr rounds mIndex = .returned { mPtr := mPtr, mIndex := q } m := by
  intro rounds
  induction rounds with
  | zero => intro mIndex h1 h2 _; omega
  | succ rounds ih =>
    intro mIndex h1 h2 hfree
    by_cases hi : mIndex = q
    · subst hi
      rw [iterator.skipFree]
      simp [hq, hocc]
    · have hqlt : q < m.mNodes.length := (List.getElem?_eq_some.mp hq).1
      have hlt : mIndex < m.mNodes.length := by omega
      have hnode : m.mNodes[mIndex]? = some m.mNodes[mIndex] := List.getElem?_eq_getElem hlt
      have hf : m.mNodes[mIndex].mHasData = false :=
        hfree mIndex _ (Nat.le_refl _) (by omega) hnode
      have hnot : ¬ mIndex ≥ m.mNodes.length := by omega
      rw [iterator.skipFree]
      simp only [hnode, hf, hnot, if_true, if_false]
      exact ih (mIndex + 1) (by omega) (by omega)
        (fun j n hj hjq hn => hfree j n (by omega) hjq hn)

/-- In every state `operator++` at a position after which no slot is occupied, the last
occupied slot of a traversal, is undefined: it reads `mNodes[size]`. -/
theorem iterator.increment_last {V : Type} (m : SlotMap V) (it : iterator)
    (hlt : it.mIndex < m.mNodes.length)
    (hfree : ∀ j node, it.mIndex < j → m.mNodes[j]? = some node → node.mHasData = false) :
    iterator.increment m it = .undefined := by
  unfold iterator.increment
  have hnot : ¬ it.mIndex ≥ m.mNodes.length := by omega
  simp only [hnot, if_false]
  exact iterator.skipFree_all_free m it.mPtr _ _ (fun j n hj hn => hfree j n (by omega) hn)

/-- C12 on the code, at two failing inputs.  After `insert(10)`, `insert(20)` and
`remove` of the first handle, slot 0 is free, yet `begin()` is the position 0, which is
not `end()`, and dereferencing it reads the value member of a node that holds a free-list
link.  And on the map of one occupied slot, `operator++` at `begin()` does not arrive at
`end()`: it reads `mNodes[1]`, outside the vector, before it compares the position with
the size. -/
theorem C12_iteration_diverges :
    (SlotMap.ctor 0 : SlotMap Nat).run Undeclared.sample 0
        [.insert 10, .insert 20, .remove ⟨0, 0⟩] = some (firstFree 1) ∧
    (firstFree 1).begin 0 = { mPtr := 0, mIndex := 0 } ∧
    iterator.eq ((firstFree 1).begin 0) ((firstFree 1).end_ 0) = false ∧
    (firstFree 1).mNodes[0]? =
      some { u := .uNextFree SIZE_MAX, mGeneration := 1, mHasData := false } ∧
    iterator.deref (firstFree 1) ((firstFree 1).begin 0) = none ∧
    (SlotMap.ctor 0 : SlotMap Nat).insert 0 = .returned ⟨⟨0, 0⟩⟩ (filled 1 1) ∧
    iterator.deref (filled 1 1) ((filled 1 1).begin 0) = some 0 ∧
    (filled 1 1).mNodes[1]? = none ∧
    iterator.increment (filled 1 1) ((filled 1 1).begin 0) = .undefined := by
  decide

/-! ## C13: the iterator that `erase` returns -/

/-- C13 on the code.  Whenever `erase(iterator&)` returns, the iterator it returns is at
the position after the erased one, occupied or not: the code executes `++iter.mIndex`.
On the map with slots 0 and 2 occupied and slot 1 free, `erase` at position 0 returns the
position 1, a free slot; the smallest occupied index above 0 is 2. -/
theorem C13_erase_returns_next_position :
    (∀ (U : Undeclared) (this : Nat) (m : SlotMap Nat) (iter : iterator),
      (∃ what, m.erase U this iter = .threw what m) ∨
      (∃ m1, m.erase U this iter =
        .returned { mPtr := iter.mPtr, mIndex := iter.mIndex + 1 } m1)) ∧
    (SlotMap.ctor 0 : SlotMap Nat).run Undeclared.sample 0
        [.insert 10, .insert 20, .insert 30, .remove ⟨0, 1⟩] = some (scenarioAC 2) ∧
    (scenarioAC 2).erase Undeclared.sample 0 { mPtr := 0, mIndex := 0 } =
      .returned { mPtr := 0, mIndex := 1 }
        { mNodes := [{ u := .uNextFree 1, mGeneration := 1, mHasData := false },
                     { u := .uNextFree SIZE_MAX, mGeneration := 1, mHasData := false },
                     { u := .uData 30, mGeneration := 0, mHasData := true }]
          mFreeList := 0
          mSize := 1 } ∧
    iterator.deref
        { mNodes := [{ u := .uNextFree 1, mGeneration := 1, mHasData := false },
                     { u := .uNextFree SIZE_MAX, mGeneration := 1, mHasData := false },
                     { u := Payload.uData (30 : Nat), mGeneration := 0, mHasData := true }]
          mFreeList := 0
          mSize := 1 } { mPtr := 0, mIndex := 1 } = none := by
  refine ⟨?_, by decide, by decide, by decide⟩
  intro U this m iter
  rcases SlotMap.erase_cases U this m iter with hthrow | ⟨_, hret⟩
  · exact Or.inl hthrow
  · exact Or.inr ⟨_, hret⟩

/-! ## C14: `erase` through a `const_iterator` -/

/-- C14 on the code: on the map of one occupied slot with `Size() == 1`, `remove` of the
handle `(0, 0)` and `erase` through an `iterator` at position 0 produce the same state,
with generation 1 in slot 0, the slot at the head of the free list and `Size() == 0`;
`erase` through a `const_iterator` at position 0 produces these slots and this free list
but `Size() == 2`: it executes `++mSize`. -/
theorem C14_erase_const_increments_Size :
    (filled 1 1).Size = 1 ∧
    (filled 1 1).remove ⟨0, 0⟩ = .returned () (oneFree 1 0) ∧
    (filled 1 1).erase Undeclared.sample 0 { mPtr := 0, mIndex := 0 } =
      .returned { mPtr := 0, mIndex := 1 } (oneFree 1 0) ∧
    (filled 1 1).erase_const Undeclared.sample 0 { mPtr := 0, mIndex := 0 } =
      .returned { mPtr := 0, mIndex := 1 } (oneFree 1 2) ∧
    (oneFree 1 0).Size = 0 ∧ (oneFree 1 2).Size = 2 := by
  decide

/-- In every state the two `erase` overloads differ in the live count only. -/
theorem SlotMap.erase_const_state {V : Type} (U : Undeclared) (this : Nat) (m : SlotMap V)
    (p : Nat) (it1 : iterator) (m1 : SlotMap V) (it2 : const_iterator) (m2 : SlotMap V)
    (h1 : m.erase U this { mPtr := this, mIndex := p } = .returned it1 m1)
    (h2 : m.erase_const U this { mPtr := this, mIndex := p } = .returned it2 m2) :
    m2.mNodes = m1.mNodes ∧ m2.mFreeList = m1.mFreeList ∧
      m1.mSize = (m.mSize + U32 - 1) % U32 ∧ m2.mSize = (m.mSize + 1) % U32 := by
  rcases SlotMap.erase_cases U this m { mPtr := this, mIndex := p } with
    ⟨what, hthrow⟩ | ⟨hlt, hret⟩
  · rw [hthrow] at h1; cases h1
  · rcases SlotMap.erase_const_cases U this m { mPtr := this, mIndex := p } with
      ⟨what, hthrow⟩ | ⟨hlt2, hret2⟩
    · rw [hthrow] at h2; cases h2
    · rw [hret] at h1
      rw [hret2] at h2
      cases h1
      cases h2
      exact ⟨rfl, rfl, rfl, rfl⟩

/-! ## C15: when `erase` throws -/

/-- C15 on the code, for every reading of the comparison `iter.mPtr == end()`, which the
header does not define.  `erase` throws "Attempted to remove value from incorrect
SlotMap" for an iterator of another map, and throws for an iterator of this map at the
end position; in both cases the map is unchanged.  For an iterator of this map at a
position within the backing store it returns exactly when that comparison is false. -/
theorem C15_erase_errors {V : Type} (U : Undeclared) (this : Nat) (m : SlotMap V)
    (iter : iterator) :
    (iter.mPtr ≠ this →
      m.erase U this iter = .threw "Attempted to remove value from incorrect SlotMap" m) ∧
    (iter.mPtr = this → iter.mIndex = m.mNodes.length →
      m.erase U this iter = .threw "Erased called with end iterator" m ∨
      m.erase U this iter = .threw "Attempted to remove value with invalid index" m) ∧
    (iter.mPtr = this → iter.mIndex < m.mNodes.length →
      ((∃ it1 m1, m.erase U this iter = .returned it1 m1) ↔
        U.ptr_eq_end iter.mPtr (m.end_ this) = false)) := by
  cases iter with
  | mk ptr idx =>
    refine ⟨?_, ?_, ?_⟩
    · intro hne
      simp only at hne
      simp [SlotMap.erase, hne]
    · intro hp hidx
      simp only at hp hidx
      subst hp
      by_cases h1 : U.ptr_eq_end ptr (m.end_ ptr) = true
      · exact Or.inl (by simp [SlotMap.erase, h1])
      · exact Or.inr (by simp [SlotMap.erase, h1, hidx])
    · intro hp hlt
      simp only at hp hlt
      subst hp
      have hnot : ¬ idx ≥ m.mNodes.length := by omega
      by_cases h1 : U.ptr_eq_end ptr (m.end_ ptr) = true
      · simp [SlotMap.erase, h1]
      · simp [SlotMap.erase, h1, hnot]

/-! ## C16: `operator[]` -/

/-- C16: for every slot map state and every handle h, `operator[](h)` throws "Invalid key
- invalid index" when h.index is at or beyond the backing-store length, throws "Invalid
key - object already destroyed" when the index is in range and the generation of the
slot differs from h.generation, and otherwise returns the position h.index; in each
case the map after the call is the map before it.  The `TypedKey` overload forwards to
the overload for a key and so does the same. -/
theorem C16_subscript_fails_loudly {V : Type} (this : Nat) (m : SlotMap V) (h : SlotKey) :
    ((h.mIndex ≥ m.mNodes.length ∧
        m.subscript this h = .threw "Invalid key - invalid index" m) ∨
      (∃ hlt : h.mIndex < m.mNodes.length,
        m.mNodes[h.mIndex].mGeneration ≠ h.mGeneration ∧
        m.subscript this h = .threw "Invalid key - object already destroyed" m) ∨
      (∃ hlt : h.mIndex < m.mNodes.length,
        m.mNodes[h.mIndex].mGeneration = h.mGeneration ∧
        m.subscript this h = .returned { mPtr := this, mIndex := h.mIndex } m)) ∧
    (∀ k : TypedKey, m.subscriptTyped this k = m.subscript this k.mKey) := by
  refine ⟨?_, fun _ => rfl⟩
  unfold SlotMap.subscript SlotMap.find
  by_cases h1 : h.mIndex ≥ m.mNodes.length
  · exact Or.inl ⟨h1, by simp [h1]⟩
  · have hlt : h.mIndex < m.mNodes.length := by omega
    by_cases h2 : m.mNodes[h.mIndex].mGeneration = h.mGeneration
    · exact Or.inr (Or.inr ⟨hlt, h2, by simp [h1, h2]⟩)
    · exact Or.inr (Or.inl ⟨hlt, h2, by simp [h1, h2]⟩)

/-! ## C17: from a handle to an iterator and back -/

theorem iterator.GetKey_of_getElem? {V : Type} (m : SlotMap V) (it : iterator)
    (node : Node V) (hnode : m.mNodes[it.mIndex]? = some node) :
    iterator.GetKey m it = some (SlotKey.ctor node.mGeneration it.mIndex) := by
  unfold iterator.GetKey
  rw [hnode]

/-- C17 as stated fails beyond the 32 bit index space.  The map of 2^32 + 1 occupied
slots is reachable, by 2^32 + 1 inserts; for the iterator at the occupied position 2^32
`GetKey()` is `(0, 0)`, the position converted to `unsigned`: its index is not the
position of the iterator. -/
theorem C17_counterexample :
    Reachable (filled (U32 + 1) 1) ∧
    (filled (U32 + 1) 1).mNodes[U32]? =
      some { u := .uData 0, mGeneration := 0, mHasData := true } ∧
    iterator.GetKey (filled (U32 + 1) 1) { mPtr := 0, mIndex := U32 } =
      some { mGeneration := 0, mIndex := 0 } ∧
    (0 : Nat) ≠ U32 := by
  have hlt : U32 < U32 + 1 := Nat.lt_succ_self _
  have hnode : (List.replicate (U32 + 1) (Node.ctor (0 : Nat) 0))[U32]? =
      some (Node.ctor 0 0) := List.getElem?_replicate_of_lt hlt
  refine ⟨?_, ?_, ?_, by decide⟩
  · have h := filled_reachable (U32 + 1)
    have hsz : (U32 + 1) % U32 = 1 := by decide
    rw [hsz] at h
    exact h
  · show (List.replicate (U32 + 1) (Node.ctor (0 : Nat) 0))[U32]? = _
    rw [hnode]
    rfl
  · have hk : SlotKey.ctor (Node.ctor (0 : Nat) 0).mGeneration U32 = ⟨0, 0⟩ := by decide
    have hnode1 : (filled (U32 + 1) 1).mNodes[({ mPtr := 0, mIndex := U32 } : iterator).mIndex]? =
        some (Node.ctor 0 0) := hnode
    rw [iterator.GetKey_of_getElem? _ _ _ hnode1]
    exact congrArg some hk

/-- C17, amended: in every reachable state, for every handle h of 32 bit members with
`contains(h)` true the iterator that `operator[](h)` and `find(h)` return has
`GetKey() == h`; and for every iterator positioned at an occupied slot whose position is
below 2^32, `contains(GetKey())` is true and `GetKey().index` equals the position of the
iterator. -/
theorem C17_handle_iterator_round_trip {V : Type} (this : Nat) {m : SlotMap V}
    (hr : Reachable m) :
    (∀ h : SlotKey, h.InRange → m.contains h = true →
      ∃ it, m.subscript this h = .returned it m ∧ m.find this h = .returned it m ∧
        iterator.GetKey m it = some h) ∧
    (∀ (it : iterator) (node : Node V), m.mNodes[it.mIndex]? = some node →
      node.mHasData = true → it.mIndex < U32 →
      ∃ k, iterator.GetKey m it = some k ∧ m.contains k = true ∧ k.mIndex = it.mIndex) := by
  constructor
  · intro h hrange hc
    obtain ⟨node, hnode, hgen⟩ := (SlotMap.contains_eq_true_iff m h).mp hc
    have hlt : h.mIndex < m.mNodes.length := (List.getElem?_eq_some.mp hnode).1
    have hget : m.mNodes[h.mIndex] = node := by
      rw [List.getElem?_eq_getElem hlt] at hnode
      exact Option.some.inj hnode
    have hnot : ¬ h.mIndex ≥ m.mNodes.length := by omega
    have hfind : m.find this h = .returned { mPtr := this, mIndex := h.mIndex } m := by
      simp [SlotMap.find, hnot, hget, hgen]
    refine ⟨{ mPtr := this, mIndex := h.mIndex }, hfind, hfind, ?_⟩
    unfold iterator.GetKey
    simp only [hnode, SlotKey.ctor, hgen, Option.some.injEq]
    rw [Nat.mod_eq_of_lt hrange.1, Nat.mod_eq_of_lt hrange.2]
  · intro it node hnode _ hpos
    have hg : node.mGeneration < U32 := hr.inv.generations node (List.getElem?_mem hnode)
    refine ⟨{ mGeneration := node.mGeneration, mIndex := it.mIndex }, ?_, ?_, rfl⟩
    · unfold iterator.GetKey
      simp only [hnode, SlotKey.ctor, Option.some.injEq]
      rw [Nat.mod_eq_of_lt hg, Nat.mod_eq_of_lt hpos]
    · exact (SlotMap.contains_eq_true_iff m _).mpr ⟨node, hnode, rfl⟩

/-- Witness for C17: the map of one occupied slot. -/
theorem C17_handle_iterator_round_trip_witness :
    Reachable (filled 1 1) ∧
    ((∀ h : SlotKey, h.InRange → (filled 1 1).contains h = true →
        ∃ it, (filled 1 1).subscript 0 h = .returned it (filled 1 1) ∧
          (filled 1 1).find 0 h = .returned it (filled 1 1) ∧
          iterator.GetKey (filled 1 1) it = some h) ∧
      (∀ (it : iterator) (node : Node Nat), (filled 1 1).mNodes[it.mIndex]? = some node →
        node.mHasData = true → it.mIndex < U32 →
        ∃ k, iterator.GetKey (filled 1 1) it = some k ∧ (filled 1 1).contains k = true ∧
          k.mIndex = it.mIndex)) :=
  ⟨filled_reachable 1, @C17_handle_iterator_round_trip Nat 0 (filled 1 1) (filled_reachable 1)⟩

/-! ## C18: the default-constructed handle -/

theorem concat_getElem? {α : Type} (l : List α) (x : α) (n : Nat) (hn : l.length = n) :
    (l ++ [x])[n]? = some x := by
  subst hn
  exact List.getElem?_concat_length l x

theorem concat_set {α : Type} (l : List α) (x y : α) (n : Nat) (hn : l.length = n) :
    (l ++ [x]).set n y = l ++ [y] := by
  subst hn
  rw [List.set_append_right _ _ (Nat.le_refl _)]
  simp

theorem lastOccupied_valid (n g size : Nat) :
    validationRule (lastOccupied n g size) ⟨g, n⟩ = true := by
  have hnode := concat_getElem? (List.replicate n (Node.ctor (0 : Nat) 0))
    { u := .uData 0, mGeneration := g, mHasData := true } n (List.length_replicate ..)
  simp only [validationRule, lastOccupied]
  rw [hnode]
  simp

theorem lastOccupied_remove (n g size : Nat) (hg : g + 1 < U32) :
    (lastOccupied n g size).remove ⟨g, n⟩ =
      .returned () (lastFree n (g + 1) ((size + U32 - 1) % U32)) := by
  have hnode := concat_getElem? (List.replicate n (Node.ctor (0 : Nat) 0))
    { u := .uData 0, mGeneration := g, mHasData := true } n (List.length_replicate ..)
  have hset := concat_set (List.replicate n (Node.ctor (0 : Nat) 0))
    { u := .uData 0, mGeneration := g, mHasData := true }
    { u := .uNextFree SIZE_MAX, mGeneration := g + 1, mHasData := false } n
    (List.length_replicate ..)
  obtain ⟨hlt, hget⟩ := List.getElem?_eq_some.mp hnode
  have hg1 : (g + 1) % U32 = g + 1 := Nat.mod_eq_of_lt hg
  have hnot : ¬ n ≥ (lastOccupied n g size).mNodes.length := Nat.not_le.mpr hlt
  have hget1 : (lastOccupied n g size).mNodes[n] =
      { u := .uData 0, mGeneration := g, mHasData := true } := hget
  unfold SlotMap.remove
  simp only [hnot, ↓reduceDIte, hget1, ne_eq, not_true_eq_false, ↓reduceIte,
    SlotMap.freeNode, hg1]
  simp only [lastOccupied, lastFree, hset]

theorem lastFree_insert (n g size : Nat) (hn : n < U32) (hg : g < U32) :
    (lastFree n g size).insert 0 =
      .returned { mKey := { mGeneration := g, mIndex := n } }
        (lastOccupied n g ((size + 1) % U32)) := by
  have hnode := concat_getElem? (List.replicate n (Node.ctor (0 : Nat) 0))
    { u := .uNextFree SIZE_MAX, mGeneration := g, mHasData := false } n
    (List.length_replicate ..)
  have hset := concat_set (List.replicate n (Node.ctor (0 : Nat) 0))
    { u := .uNextFree SIZE_MAX, mGeneration := g, mHasData := false }
    { u := .uData 0, mGeneration := g, mHasData := true } n
    (List.length_replicate ..)
  have hne : n ≠ SIZE_MAX := by unfold U32 at hn; unfold SIZE_MAX; omega
  have hkey : SlotKey.ctor g n = { mGeneration := g, mIndex := n } := by
    simp only [SlotKey.ctor, SlotKey.mk.injEq]
    exact ⟨Nat.mod_eq_of_lt hg, Nat.mod_eq_of_lt hn⟩
  simp only [SlotMap.insert, lastFree, ne_eq, hne, not_false_eq_true, ↓reduceIte, hnode,
    hset, lastOccupied, hkey]

theorem lastOccupied_reachable (n : Nat) (hn : n < U32) :
    ∀ g, g < U32 → Reachable (lastOccupied n g ((n + 1) % U32)) := by
  have hpos : 0 < U32 := by decide
  have hs : (n + 1) % U32 < U32 := Nat.mod_lt _ hpos
  intro g
  induction g with
  | zero =>
    intro _
    have e : lastOccupied n 0 ((n + 1) % U32) = filled (n + 1) ((n + 1) % U32) := by
      have e1 : List.replicate (n + 1) (Node.ctor (0 : Nat) 0) =
          List.replicate n (Node.ctor 0 0) ++ [Node.ctor 0 0] := List.replicate_succ' ..
      have e2 : (Node.ctor (0 : Nat) 0) =
          { u := .uData 0, mGeneration := 0, mHasData := true } := by decide
      unfold lastOccupied filled
      rw [e1, e2]
    rw [e]
    exact filled_reachable (n + 1)
  | succ g ih =>
    intro hg
    have hprev := ih (by omega)
    have hr1 := @Reachable.remove _ _ _ ⟨g, n⟩ hprev ⟨(by show g < U32; omega), hn⟩
      (lastOccupied_valid n g _) (lastOccupied_remove n g _ hg)
    have hins := lastFree_insert n (g + 1) (((n + 1) % U32 + U32 - 1) % U32) hn hg
    have hsz : (((n + 1) % U32 + U32 - 1) % U32 + 1) % U32 = (n + 1) % U32 := by
      unfold U32 at hs ⊢; omega
    rw [hsz] at hins
    exact Reachable.insert hr1 hins

theorem lastFree_reachable (n : Nat) (hn : n < U32) (g : Nat) (hg : g + 1 < U32) :
    Reachable (lastFree n (g + 1) (((n + 1) % U32 + U32 - 1) % U32)) :=
  @Reachable.remove _ _ _ ⟨g, n⟩ (lastOccupied_reachable n hn g (by omega))
    ⟨(by show g < U32; omega), hn⟩ (lastOccupied_valid n g _) (lastOccupied_remove n g _ hg)

/-- C18 as stated fails at the far corner of the handle space.  The map of 2^32 slots
whose last slot, of index 2^32 - 1, was removed 2^32 - 1 times is reachable; its last
slot is free with generation 2^32 - 1, and `insert` recycles it and returns the handle
`(2^32 - 1, 2^32 - 1)`, which is the default-constructed handle. -/
theorem C18_counterexample :
    Reachable (lastFree (U32 - 1) (U32 - 1) (U32 - 1)) ∧
    (lastFree (U32 - 1) (U32 - 1) (U32 - 1)).insert 0 =
      .returned { mKey := SlotKey.default } (lastOccupied (U32 - 1) (U32 - 1) 0) ∧
    (⟨SlotKey.default⟩ : TypedKey) = TypedKey.default := by
  refine ⟨?_, ?_, rfl⟩
  · have h := lastFree_reachable (U32 - 1) (by decide) (U32 - 2) (by decide)
    have e1 : U32 - 2 + 1 = U32 - 1 := by decide
    have e2 : ((U32 - 1 + 1) % U32 + U32 - 1) % U32 = U32 - 1 := by decide
    rw [e1, e2] at h
    exact h
  · have h := lastFree_insert (U32 - 1) (U32 - 1) (U32 - 1) (by decide) (by decide)
    have e : (U32 - 1 + 1) % U32 = 0 := by decide
    rw [e] at h
    exact h

/-- C18, amended: the default-constructed handle has generation and index both equal to
2^32 - 1, the maximum of their types; in every state reachable from the empty map
`insert` returns a handle that differs from the default-constructed one unless the call
recycles the slot of index 2^32 - 1 while the generation stored in it is 2^32 - 1; in
particular it differs whenever the backing store has fewer than 2^32 slots. -/
theorem C18_default_handle {V : Type} {m : SlotMap V} (hr : Reachable m) (data : V) :
    SlotKey.default.mGeneration = U32 - 1 ∧ SlotKey.default.mIndex = U32 - 1 ∧
    TypedKey.default.mKey = SlotKey.default ∧
    ∃ h m1, m.insert data = .returned h m1 ∧
      (h.mKey = SlotKey.default →
        m.mFreeList = U32 - 1 ∧
        ∃ next, m.mNodes[U32 - 1]? =
          some { u := .uNextFree next, mGeneration := U32 - 1, mHasData := false }) ∧
      (m.mNodes.length < U32 → h.mKey ≠ SlotKey.default ∧ h ≠ TypedKey.default) := by
  refine ⟨rfl, rfl, rfl, ?_⟩
  obtain ⟨h, m1, hins, _, happ, hrec⟩ := Inv.insert hr.inv data
  have hmain : h.mKey = SlotKey.default →
      m.mFreeList = U32 - 1 ∧
      ∃ next, m.mNodes[U32 - 1]? =
        some { u := .uNextFree next, mGeneration := U32 - 1, mHasData := false } := by
    intro hdef
    by_cases hhead : m.mFreeList = SIZE_MAX
    · obtain ⟨hkey, _⟩ := happ hhead
      rw [hkey] at hdef
      have h0 : (0 : Nat) = U32 - 1 := congrArg SlotKey.mGeneration hdef
      exact absurd h0 (by decide)
    · obtain ⟨next, g, hfree, hkey, _⟩ := hrec hhead
      rw [hkey] at hdef
      have hg : g = U32 - 1 := congrArg SlotKey.mGeneration hdef
      have hf : m.mFreeList = U32 - 1 := congrArg SlotKey.mIndex hdef
      refine ⟨hf, next, ?_⟩
      rw [hf, hg] at hfree
      exact hfree
  refine ⟨h, m1, hins, hmain, ?_⟩
  intro hlen
  have hne : h.mKey ≠ SlotKey.default := by
    intro hdef
    obtain ⟨_, next, hnode⟩ := hmain hdef
    have := (List.getElem?_eq_some.mp hnode).1
    omega
  refine ⟨hne, ?_⟩
  intro heq
  exact hne (congrArg TypedKey.mKey heq)

/-- Witness for C18: the newly constructed map. -/
theorem C18_default_handle_witness :
    Reachable (SlotMap.ctor 0 : SlotMap Nat) ∧
    (SlotKey.default.mGeneration = U32 - 1 ∧ SlotKey.default.mIndex = U32 - 1 ∧
      TypedKey.default.mKey = SlotKey.default ∧
      ∃ h m1, (SlotMap.ctor 0 : SlotMap Nat).insert 5 = .returned h m1 ∧
        (h.mKey = SlotKey.default →
          (SlotMap.ctor 0 : SlotMap Nat).mFreeList = U32 - 1 ∧
          ∃ next, (SlotMap.ctor 0 : SlotMap Nat).mNodes[U32 - 1]? =
            some { u := .uNextFree next, mGeneration := U32 - 1, mHasData := false }) ∧
        ((SlotMap.ctor 0 : SlotMap Nat).mNodes.length < U32 →
          h.mKey ≠ SlotKey.default ∧ h ≠ TypedKey.default)) :=
  ⟨Reachable.ctor 0, C18_default_handle (Reachable.ctor 0) 5⟩

/-! ## C19: the scenario of the specification -/

/-- C19 on the code, with A, B, C, D the values 10, 20, 30, 40 and a new map whose
uninitialised `mSize` holds 7.  The three inserts return `(0, 0)`, `(0, 1)`, `(0, 2)`;
after `remove` of `(0, 1)`, `contains((0, 1))` is false and the traversal visits 10 at
position 0 and 30 at position 2; the insert of 40 returns `(1, 1)`, which differs from
`(0, 1)`, `contains((0, 1))` is false, `contains((1, 1))` is true and the traversal
visits 10, 40, 30 at the positions 0, 1, 2.  But `Size()` after the removal is 9, not 2,
and in both traversals the `operator++` at position 2 does not arrive at `end()`: it
is undefined, reading `mNodes[3]`. -/
theorem C19_scenario :
    (SlotMap.ctor 7 : SlotMap Nat).insert 10 = .returned ⟨⟨0, 0⟩⟩
      { mNodes := [{ u := .uData 10, mGeneration := 0, mHasData := true }]
        mFreeList := SIZE_MAX
        mSize := 8 } ∧
    SlotMap.insert
      { mNodes := [{ u := Payload.uData (10 : Nat), mGeneration := 0, mHasData := true }]
        mFreeList := SIZE_MAX
        mSize := 8 } 20 = .returned ⟨⟨0, 1⟩⟩
      { mNodes := [{ u := .uData 10, mGeneration := 0, mHasData := true },
                   { u := .uData 20, mGeneration := 0, mHasData := true }]
        mFreeList := SIZE_MAX
        mSize := 9 } ∧
    SlotMap.insert
      { mNodes := [{ u := Payload.uData (10 : Nat), mGeneration := 0, mHasData := true },
                   { u := .uData 20, mGeneration := 0, mHasData := true }]
        mFreeList := SIZE_MAX
        mSize := 9 } 30 = .returned ⟨⟨0, 2⟩⟩ (scenarioABC 10) ∧
    (scenarioABC 10).removeTyped ⟨⟨0, 1⟩⟩ = .returned () (scenarioAC 9) ∧
    (scenarioAC 9).containsTyped ⟨⟨0, 1⟩⟩ = false ∧
    (scenarioAC 9).Size = 9 ∧
    (scenarioAC 9).begin 0 = { mPtr := 0, mIndex := 0 } ∧
    iterator.deref (scenarioAC 9) { mPtr := 0, mIndex := 0 } = some 10 ∧
    iterator.increment (scenarioAC 9) { mPtr := 0, mIndex := 0 } =
      .returned { mPtr := 0, mIndex := 2 } (scenarioAC 9) ∧
    iterator.deref (scenarioAC 9) { mPtr := 0, mIndex := 2 } = some 30 ∧
    iterator.increment (scenarioAC 9) { mPtr := 0, mIndex := 2 } = .undefined ∧
    (scenarioAC 9).end_ 0 = { mPtr := 0, mIndex := 3 } ∧
    (scenarioAC 9).insert 40 = .returned ⟨⟨1, 1⟩⟩ (scenarioADC 10) ∧
    TypedKey.ne ⟨⟨1, 1⟩⟩ ⟨⟨0, 1⟩⟩ = true ∧
    (scenarioADC 10).containsTyped ⟨⟨0, 1⟩⟩ = false ∧
    (scenarioADC 10).containsTyped ⟨⟨1, 1⟩⟩ = true ∧
    iterator.deref (scenarioADC 10) ((scenarioADC 10).begin 0) = some 10 ∧
    iterator.increment (scenarioADC 10) { mPtr := 0, mIndex := 0 } =
      .returned { mPtr := 0, mIndex := 1 } (scenarioADC 10) ∧
    iterator.deref (scenarioADC 10) { mPtr := 0, mIndex := 1 } = some 40 ∧
    iterator.increment (scenarioADC 10) { mPtr := 0, mIndex := 1 } =
      .returned { mPtr := 0, mIndex := 2 } (scenarioADC 10) ∧
    iterator.deref (scenarioADC 10) { mPtr := 0, mIndex := 2 } = some 30 ∧
    iterator.increment (scenarioADC 10) { mPtr := 0, mIndex := 2 } = .undefined := by
  decide

/-! ## C20: equality of handles -/

/-- C20: for all handles a and b, `a == b` holds if and only if the generations are equal
and the indices are equal, and `a != b` is the negation of `a == b`, for `SlotKey` and
for `TypedKey`; a handle built from a generation g and an index i, values of the 32 bit
types, reports `GetGeneration() == g` and `GetIndex() == i`. -/
theorem C20_handle_equality (a b : SlotKey) (ta tb : TypedKey) (g i : Nat)
    (hg : g < U32) (hi : i < U32) :
    (SlotKey.eq a b = true ↔ a.mGeneration = b.mGeneration ∧ a.mIndex = b.mIndex) ∧
    (SlotKey.eq a b = true ↔ a = b) ∧
    SlotKey.ne a b = !(SlotKey.eq a b) ∧
    (TypedKey.eq ta tb = true ↔
      ta.mKey.mGeneration = tb.mKey.mGeneration ∧ ta.mKey.mIndex = tb.mKey.mIndex) ∧
    (TypedKey.eq ta tb = true ↔ ta = tb) ∧
    TypedKey.ne ta tb = !(TypedKey.eq ta tb) ∧
    (SlotKey.ctor g i).GetGeneration = g ∧ (SlotKey.ctor g i).GetIndex = i ∧
    (TypedKey.ctor g i).GetGeneration = g ∧ (TypedKey.ctor g i).GetIndex = i := by
  have hkey : ∀ x y : SlotKey,
      SlotKey.eq x y = true ↔ x.mGeneration = y.mGeneration ∧ x.mIndex = y.mIndex := by
    intro x y
    simp [SlotKey.eq]
  have hstruct : ∀ x y : SlotKey,
      (x.mGeneration = y.mGeneration ∧ x.mIndex = y.mIndex) ↔ x = y := by
    intro x y
    cases x; cases y
    simp
  have hgm : g % U32 = g := Nat.mod_eq_of_lt hg
  have him : i % U32 = i := Nat.mod_eq_of_lt hi
  refine ⟨hkey a b, (hkey a b).trans (hstruct a b), rfl, hkey ta.mKey tb.mKey, ?_, rfl,
    hgm, him, hgm, him⟩
  rw [TypedKey.eq, hkey, hstruct]
  cases ta; cases tb
  simp

/-- Witness for C20: the handles `(1, 2)` and `(1, 3)`. -/
theorem C20_handle_equality_witness :
    (1 : Nat) < U32 ∧ (2 : Nat) < U32 ∧
    ((SlotKey.eq ⟨1, 2⟩ ⟨1, 3⟩ = true ↔
        (⟨1, 2⟩ : SlotKey).mGeneration = (⟨1, 3⟩ : SlotKey).mGeneration ∧
          (⟨1, 2⟩ : SlotKey).mIndex = (⟨1, 3⟩ : SlotKey).mIndex) ∧
      (SlotKey.eq ⟨1, 2⟩ ⟨1, 3⟩ = true ↔ (⟨1, 2⟩ : SlotKey) = ⟨1, 3⟩) ∧
      SlotKey.ne ⟨1, 2⟩ ⟨1, 3⟩ = !(SlotKey.eq ⟨1, 2⟩ ⟨1, 3⟩) ∧
      (TypedKey.eq ⟨⟨1, 2⟩⟩ ⟨⟨1, 3⟩⟩ = true ↔
        (⟨⟨1, 2⟩⟩ : TypedKey).mKey.mGeneration = (⟨⟨1, 3⟩⟩ : TypedKey).mKey.mGeneration ∧
          (⟨⟨1, 2⟩⟩ : TypedKey).mKey.mIndex = (⟨⟨1, 3⟩⟩ : TypedKey).mKey.mIndex) ∧
      (TypedKey.eq ⟨⟨1, 2⟩⟩ ⟨⟨1, 3⟩⟩ = true ↔ (⟨⟨1, 2⟩⟩ : TypedKey) = ⟨⟨1, 3⟩⟩) ∧
      TypedKey.ne ⟨⟨1, 2⟩⟩ ⟨⟨1, 3⟩⟩ = !(TypedKey.eq ⟨⟨1, 2⟩⟩ ⟨⟨1, 3⟩⟩) ∧
      (SlotKey.ctor 1 2).GetGeneration = 1 ∧ (SlotKey.ctor 1 2).GetIndex = 2 ∧
      (TypedKey.ctor 1 2).GetGeneration = 1 ∧ (TypedKey.ctor 1 2).GetIndex = 2) :=
  ⟨by decide, by decide, C20_handle_equality ⟨1, 2⟩ ⟨1, 3⟩ ⟨⟨1, 2⟩⟩ ⟨⟨1, 3⟩⟩ 1 2
    (by decide) (by decide)⟩

/-! ## C10 at the wrap of the generation -/

/-- C10 as stated fails where the 32 bit generation wraps.  The map of one slot that was
recycled 2^32 - 1 times is reachable; its slot is occupied with generation 2^32 - 1 and
h = `(2^32 - 1, 0)` is a valid handle.  After `remove(h)` the next `insert` returns the
handle `(0, 0)`: its generation is 0, not h.generation + 1 = 2^32. -/
theorem C10_counterexample :
    Reachable (lastOccupied 0 (U32 - 1) 1) ∧
    validationRule (lastOccupied 0 (U32 - 1) 1) ⟨U32 - 1, 0⟩ = true ∧
    (lastOccupied 0 (U32 - 1) 1).remove ⟨U32 - 1, 0⟩ = .returned () (lastFree 0 0 0) ∧
    (lastFree 0 0 0).insert 9 = .returned ⟨⟨0, 0⟩⟩
      { mNodes := [{ u := .uData 9, mGeneration := 0, mHasData := true }]
        mFreeList := SIZE_MAX
        mSize := 1 } ∧
    (⟨⟨0, 0⟩⟩ : TypedKey).mKey.mGeneration ≠ (⟨U32 - 1, 0⟩ : SlotKey).mGeneration + 1 := by
  refine ⟨?_, lastOccupied_valid 0 (U32 - 1) 1, by decide, by decide, by decide⟩
  have h := lastOccupied_reachable 0 (by decide) (U32 - 1) (by decide)
  have e : (0 + 1) % U32 = 1 := by decide
  rw [e] at h
  exact h

/-! ## C21: what `insert` does to the state -/

theorem SlotMap.insert_append {V : Type} (m : SlotMap V) (data : V)
    (hhead : m.mFreeList = SIZE_MAX) :
    m.insert data = .returned (TypedKey.ctor 0 m.mNodes.length)
      { mNodes := m.mNodes ++ [{ u := .uData data, mGeneration := 0, mHasData := true }]
        mFreeList := SIZE_MAX
        mSize := (m.mSize + 1) % U32 } := by
  have h0 : (0 : Nat) % U32 = 0 := by decide
  simp [SlotMap.insert, hhead, TypedKey.ctor, Node.ctor, h0]

theorem SlotMap.insert_recycle {V : Type} (m : SlotMap V) (data : V) (next g : Nat)
    (flag : Bool) (hhead : m.mFreeList ≠ SIZE_MAX)
    (hnode : m.mNodes[m.mFreeList]? =
      some { u := .uNextFree next, mGeneration := g, mHasData := flag }) :
    m.insert data = .returned (TypedKey.ctor g m.mFreeList)
      { mNodes := m.mNodes.set m.mFreeList
          { u := .uData data, mGeneration := g, mHasData := true }
        mFreeList := next
        mSize := (m.mSize + 1) % U32 } := by
  simp [SlotMap.insert, hhead, hnode, TypedKey.ctor]

theorem Node.move_of_flag {V : Type} (node : Node V)
    (hflag : node.mHasData = true ↔ ∃ v, node.u = .uData v) : Node.move node = some node := by
  cases node with
  | mk u g flag =>
    cases u with
    | uData v =>
      have hf : flag = true := hflag.mpr ⟨v, rfl⟩
      subst hf
      rfl
    | uNextFree n =>
      cases flag with
      | false => rfl
      | true =>
        obtain ⟨v, hv⟩ := hflag.mp rfl
        cases hv

/-- C21 as stated fails when the index space is used up.  The map of 2^32 occupied slots
is reachable and has an empty free list; `insert` appends slot 2^32 and returns the handle
`(0, 0)`, whose index is not the previous length 2^32. -/
theorem C21_counterexample :
    Reachable (filled U32 0) ∧
    (filled U32 0).mFreeList = SIZE_MAX ∧
    (filled U32 0).mNodes.length = U32 ∧
    (filled U32 0).insert 0 = .returned ⟨⟨0, 0⟩⟩
      { mNodes := (filled U32 0).mNodes ++ [{ u := .uData 0, mGeneration := 0, mHasData := true }]
        mFreeList := SIZE_MAX
        mSize := 1 } ∧
    (⟨⟨0, 0⟩⟩ : TypedKey).mKey.mIndex ≠ (filled U32 0).mNodes.length := by
  have hlen : (filled U32 0).mNodes.length = U32 := by
    simp only [filled, List.length_replicate]
  refine ⟨?_, rfl, hlen, ?_, ?_⟩
  · have h := filled_reachable U32
    have hsz : U32 % U32 = 0 := by decide
    rw [hsz] at h
    exact h
  · have hk : TypedKey.ctor 0 U32 = ⟨⟨0, 0⟩⟩ := by decide
    have h1 : ((filled U32 0).mSize + 1) % U32 = 1 := by decide
    rw [SlotMap.insert_append (filled U32 0) 0 rfl, hlen, hk, h1]
  · rw [hlen]
    decide

/-- C21, amended: in every reachable state, if the free-list head is not the sentinel, the head
slot f holds a next-free link and `insert` stores the value in slot f, marks it occupied,
returns the handle (generation of slot f, f), sets the free-list head to the link that
slot f held, and leaves the backing-store length and every other slot unchanged;
otherwise it appends one occupied slot with generation 0, returns the handle built from
(0, previous length), whose index is the previous length converted to the 32 bit index
type and so equals the previous length when that is below 2^32, and leaves every
existing slot and the free-list head unchanged.  In both
cases the live count increases by exactly one, in 32 bit arithmetic.  The move
constructor of `Node`, which a reallocation runs, reproduces each node. -/
theorem C21_insert_transition {V : Type} {m : SlotMap V} (hr : Reachable m) (data : V) :
    (m.mFreeList ≠ SIZE_MAX →
      ∃ next g, m.mNodes[m.mFreeList]? =
          some { u := .uNextFree next, mGeneration := g, mHasData := false } ∧
        m.insert data = .returned { mKey := { mGeneration := g, mIndex := m.mFreeList } }
          { mNodes := m.mNodes.set m.mFreeList
              { u := .uData data, mGeneration := g, mHasData := true }
            mFreeList := next
            mSize := (m.mSize + 1) % U32 } ∧
        (m.mNodes.set m.mFreeList
          ({ u := .uData data, mGeneration := g, mHasData := true } : Node V)).length =
            m.mNodes.length ∧
        (m.mNodes.set m.mFreeList
          ({ u := .uData data, mGeneration := g, mHasData := true } : Node V))[m.mFreeList]? =
            some { u := .uData data, mGeneration := g, mHasData := true } ∧
        ∀ i, i ≠ m.mFreeList →
          (m.mNodes.set m.mFreeList
            ({ u := .uData data, mGeneration := g, mHasData := true } : Node V))[i]? = m.mNodes[i]?) ∧
    (m.mFreeList = SIZE_MAX →
      m.insert data = .returned (TypedKey.ctor 0 m.mNodes.length)
        { mNodes := m.mNodes ++ [{ u := .uData data, mGeneration := 0, mHasData := true }]
          mFreeList := m.mFreeList
          mSize := (m.mSize + 1) % U32 } ∧
      (m.mNodes.length < U32 →
        TypedKey.ctor 0 m.mNodes.length =
          { mKey := { mGeneration := 0, mIndex := m.mNodes.length } }) ∧
      (m.mNodes ++ [({ u := .uData data, mGeneration := 0, mHasData := true } : Node V)]).length =
        m.mNodes.length + 1 ∧
      ∀ i, i < m.mNodes.length →
        (m.mNodes ++ [({ u := .uData data, mGeneration := 0, mHasData := true } : Node V)])[i]? =
          m.mNodes[i]?) ∧
    (m.mSize + 1 < U32 → (m.mSize + 1) % U32 = m.mSize + 1) ∧
    (∀ node ∈ m.mNodes, Node.move node = some node) := by
  have hinv := hr.inv
  refine ⟨?_, ?_, fun h => Nat.mod_eq_of_lt h, ?_⟩
  · intro hhead
    obtain ⟨⟨l, _, hc⟩, hgen, _⟩ := hinv
    cases l with
    | nil => exact absurd hc hhead
    | cons i rest =>
      obtain ⟨h1, h2, next, g, hnode, _⟩ := hc
      have hnode1 : m.mNodes[m.mFreeList]? =
          some { u := .uNextFree next, mGeneration := g, mHasData := false } := by
        rw [h1]; exact hnode
      have hg : g < U32 := hgen _ (List.getElem?_mem hnode)
      have hkey : TypedKey.ctor g m.mFreeList =
          { mKey := { mGeneration := g, mIndex := m.mFreeList } } := by
        simp only [TypedKey.ctor, SlotKey.ctor, TypedKey.mk.injEq, SlotKey.mk.injEq]
        exact ⟨Nat.mod_eq_of_lt hg, Nat.mod_eq_of_lt (h1 ▸ h2)⟩
      have hlt : m.mFreeList < m.mNodes.length := (List.getElem?_eq_some.mp hnode1).1
      refine ⟨next, g, hnode1, ?_, List.length_set .., List.getElem?_set_self hlt, ?_⟩
      · rw [← hkey]
        exact SlotMap.insert_recycle m data next g false hhead hnode1
      · intro j hj
        exact List.getElem?_set_ne (Ne.symm hj)
  · intro hhead
    refine ⟨?_, ?_, by simp, ?_⟩
    · rw [SlotMap.insert_append m data hhead, hhead]
    · intro hlen
      simp only [TypedKey.ctor, SlotKey.ctor, TypedKey.mk.injEq, SlotKey.mk.injEq]
      exact ⟨by decide, Nat.mod_eq_of_lt hlen⟩
    · intro j hj
      exact List.getElem?_append_left hj
  · intro node hnode
    exact Node.move_of_flag node (hinv.flags node hnode)

/-- Witness for C21: the newly constructed map. -/
theorem C21_insert_transition_witness :
    Reachable (SlotMap.ctor 0 : SlotMap Nat) ∧
    (SlotMap.ctor 0 : SlotMap Nat).insert 5 = .returned (TypedKey.ctor 0 0)
      { mNodes := [{ u := .uData 5, mGeneration := 0, mHasData := true }]
        mFreeList := SIZE_MAX
        mSize := 1 } :=
  ⟨Reachable.ctor 0,
    ((C21_insert_transition (Reachable.ctor (0 : Nat)) (5 : Nat)).2.1 rfl).1⟩

/-! ## C22: what `remove` does to the state -/

/-- C22 as stated fails where the 32 bit generation wraps.  The map of one slot that was
recycled 2^32 - 1 times is reachable; its slot is occupied with generation 2^32 - 1 and
`(2^32 - 1, 0)` is a valid handle.  `remove` of it leaves the slot free with generation
0, which is not the old generation increased by one. -/
theorem C22_counterexample :
    Reachable (lastOccupied 0 (U32 - 1) 1) ∧
    validationRule (lastOccupied 0 (U32 - 1) 1) ⟨U32 - 1, 0⟩ = true ∧
    (lastOccupied 0 (U32 - 1) 1).mNodes[0]? =
      some { u := .uData 0, mGeneration := U32 - 1, mHasData := true } ∧
    (lastOccupied 0 (U32 - 1) 1).remove ⟨U32 - 1, 0⟩ = .returned () (lastFree 0 0 0) ∧
    (lastFree 0 0 0).mNodes[0]? =
      some { u := .uNextFree SIZE_MAX, mGeneration := 0, mHasData := false } ∧
    (0 : Nat) ≠ (U32 - 1) + 1 := by
  refine ⟨?_, lastOccupied_valid 0 (U32 - 1) 1, by decide, by decide, by decide, by decide⟩
  have h := lastOccupied_reachable 0 (by decide) (U32 - 1) (by decide)
  have e : (0 + 1) % U32 = 1 := by decide
  rw [e] at h
  exact h

/-- C22, amended: for every state and every handle h that `contains` accepts, in
particular every valid one, `remove(h)` returns; afterwards the slot at h.index is free,
its generation is the old one plus one modulo 2^32, and its next-free link is the
previous free-list head; the free-list head is h.index; the live count is the old one
minus one modulo 2^32; the backing-store length and every other slot are unchanged. -/
theorem C22_remove_transition {V : Type} (m : SlotMap V) (h : SlotKey)
    (hcontains : m.contains h = true) :
    ∃ node m1, m.mNodes[h.mIndex]? = some node ∧ node.mGeneration = h.mGeneration ∧
      m.remove h = .returned () m1 ∧
      m1.mNodes[h.mIndex]? =
        some { u := .uNextFree m.mFreeList, mGeneration := (node.mGeneration + 1) % U32,
               mHasData := false } ∧
      (node.mGeneration + 1 < U32 → (node.mGeneration + 1) % U32 = node.mGeneration + 1) ∧
      m1.mFreeList = h.mIndex ∧
      m1.mSize = (m.mSize + U32 - 1) % U32 ∧
      (0 < m.mSize → m.mSize < U32 → m1.mSize = m.mSize - 1) ∧
      m1.mNodes.length = m.mNodes.length ∧
      ∀ i, i ≠ h.mIndex → m1.mNodes[i]? = m.mNodes[i]? := by
  rcases SlotMap.remove_cases m h with ⟨hc, _⟩ | ⟨_, hlt, hret⟩
  · rw [hcontains] at hc; cases hc
  · obtain ⟨node, hnode, hgen⟩ := (SlotMap.contains_eq_true_iff m h).mp hcontains
    have hget : m.mNodes[h.mIndex] = node := by
      rw [List.getElem?_eq_getElem hlt] at hnode
      exact Option.some.inj hnode
    refine ⟨node, _, hnode, hgen, hret, ?_, fun hs => Nat.mod_eq_of_lt hs, rfl, rfl, ?_, ?_, ?_⟩
    · show (m.freeNode h.mIndex m.mNodes[h.mIndex])[h.mIndex]? = _
      unfold SlotMap.freeNode
      rw [List.getElem?_set_self hlt, hget]
    · intro h0 h1
      show (m.mSize + U32 - 1) % U32 = m.mSize - 1
      unfold U32 at h1 ⊢
      omega
    · show (m.freeNode h.mIndex m.mNodes[h.mIndex]).length = _
      unfold SlotMap.freeNode
      exact List.length_set ..
    · intro i hi
      show (m.freeNode h.mIndex m.mNodes[h.mIndex])[i]? = _
      unfold SlotMap.freeNode
      exact List.getElem?_set_ne (Ne.symm hi)

/-- Witness for C22: the scenario map of three occupied slots and the handle `(0, 1)`. -/
theorem C22_remove_transition_witness :
    (scenarioABC 3).contains ⟨0, 1⟩ = true ∧
    ∃ node m1, (scenarioABC 3).mNodes[1]? = some node ∧ node.mGeneration = 0 ∧
      (scenarioABC 3).remove ⟨0, 1⟩ = .returned () m1 ∧
      m1.mNodes[1]? =
        some { u := .uNextFree (scenarioABC 3).mFreeList,
               mGeneration := (node.mGeneration + 1) % U32, mHasData := false } ∧
      (node.mGeneration + 1 < U32 → (node.mGeneration + 1) % U32 = node.mGeneration + 1) ∧
      m1.mFreeList = 1 ∧
      m1.mSize = ((scenarioABC 3).mSize + U32 - 1) % U32 ∧
      (0 < (scenarioABC 3).mSize → (scenarioABC 3).mSize < U32 →
        m1.mSize = (scenarioABC 3).mSize - 1) ∧
      m1.mNodes.length = (scenarioABC 3).mNodes.length ∧
      ∀ i, i ≠ 1 → m1.mNodes[i]? = (scenarioABC 3).mNodes[i]? :=
  ⟨by decide, C22_remove_transition (scenarioABC 3) ⟨0, 1⟩ (by decide)⟩

/-! ## C23: generations only grow -/

/-- C23 as stated fails where the 32 bit generation wraps.  The map of one slot that was
recycled 2^32 - 1 times is reachable; its slot is occupied with generation 2^32 - 1, and
`remove` of its handle leaves the generation 0 in the slot: the generation has
decreased. -/
theorem C23_counterexample :
    Reachable (lastOccupied 0 (U32 - 1) 1) ∧
    (lastOccupied 0 (U32 - 1) 1).mNodes[0]? =
      some { u := .uData 0, mGeneration := U32 - 1, mHasData := true } ∧
    (lastOccupied 0 (U32 - 1) 1).remove ⟨U32 - 1, 0⟩ = .returned () (lastFree 0 0 0) ∧
    (lastFree 0 0 0).mNodes[0]? =
      some { u := .uNextFree SIZE_MAX, mGeneration := 0, mHasData := false } ∧
    (0 : Nat) < U32 - 1 := by
  refine ⟨?_, by decide, by decide, by decide, by decide⟩
  have h := lastOccupied_reachable 0 (by decide) (U32 - 1) (by decide)
  have e : (0 + 1) % U32 = 1 := by decide
  rw [e] at h
  exact h

/-- C23, amended: across every operation (`insert`, `remove`, `TryRemove`, `erase`) every
existing slot still exists afterwards; `insert` and every call that does not remove the
slot leave its generation unchanged; each successful removal changes the generation of
exactly the removed slot, to the old one plus one in 32 bit arithmetic, so that no
generation decreases except by the wrap from 2^32 - 1 to 0; `find` returns the map
unchanged and `contains` has no effect. -/
theorem C23_generation_steps {V : Type} (U : Undeclared) (this : Nat) {m m1 : SlotMap V}
    {op : Op V} (hstep : m.step U this op = some m1) (i : Nat) (node : Node V)
    (hnode : m.mNodes[i]? = some node) :
    (∃ node1, m1.mNodes[i]? = some node1 ∧
      (m.removes U this i op = true →
        node1.mGeneration = (node.mGeneration + 1) % U32) ∧
      (m.removes U this i op = false → node1.mGeneration = node.mGeneration) ∧
      (m.inserted op = true → node1.mGeneration = node.mGeneration) ∧
      (node.mGeneration + 1 < U32 → node.mGeneration ≤ node1.mGeneration)) ∧
    (∀ j, m.removes U this i op = true → m.removes U this j op = true → j = i) ∧
    (∀ key it s, m.find this key = .returned it s → s = m) := by
  obtain ⟨node1, hnode1, hgen1⟩ := SlotMap.step_generation U this hstep i node hnode
  refine ⟨⟨node1, hnode1, ?_, ?_, ?_, ?_⟩, ?_, ?_⟩
  · intro hrem
    rw [hgen1, if_pos hrem]
  · intro hrem
    rw [hgen1, hrem]
    simp
  · intro hins
    have hrem : m.removes U this i op = false := by
      cases op with
      | insert data => rfl
      | remove key => simp [SlotMap.inserted] at hins
      | TryRemove key => simp [SlotMap.inserted] at hins
      | erase iter => simp [SlotMap.inserted] at hins
      | erase_const iter => simp [SlotMap.inserted] at hins
    rw [hgen1, hrem]
    simp
  · intro hsmall
    rw [hgen1]
    split
    · rw [Nat.mod_eq_of_lt hsmall]
      omega
    · exact Nat.le_refl _
  · intro j hi hj
    cases op with
    | insert data => simp [SlotMap.removes] at hi
    | remove key =>
      simp only [SlotMap.removes] at hi hj
      split at hi
      · split at hj
        · have e1 := of_decide_eq_true hi
          have e2 := of_decide_eq_true hj
          omega
        · cases hj
      · cases hi
    | TryRemove key =>
      simp only [SlotMap.removes] at hi hj
      split at hi
      · split at hj
        · have e1 := of_decide_eq_true hi
          have e2 := of_decide_eq_true hj
          omega
        · cases hj
      · cases hi
    | erase iter =>
      simp only [SlotMap.removes] at hi hj
      split at hi
      · split at hj
        · have e1 := of_decide_eq_true hi
          have e2 := of_decide_eq_true hj
          omega
        · cases hj
      · cases hi
    | erase_const iter =>
      simp only [SlotMap.removes] at hi hj
      split at hi
      · split at hj
        · have e1 := of_decide_eq_true hi
          have e2 := of_decide_eq_true hj
          omega
        · cases hj
      · cases hi
  · intro key it s hfind
    unfold SlotMap.find at hfind
    split at hfind
    · cases hfind
    · simp only at hfind
      split at hfind
      · cases hfind
      · cases hfind
        rfl

/-- Witness for C23: `remove` of the handle `(0, 1)` on the scenario map, seen at slot 1. -/
theorem C23_generation_steps_witness :
    (scenarioABC 3).step Undeclared.sample 0 (.remove ⟨0, 1⟩) = some (scenarioAC 2) ∧
    (scenarioABC 3).mNodes[1]? =
      some { u := .uData 20, mGeneration := 0, mHasData := true } ∧
    ∃ node1, (scenarioAC 2).mNodes[1]? = some node1 ∧
      node1.mGeneration = (0 + 1) % U32 :=
  ⟨by decide, by decide,
    have h := (@C23_generation_steps Nat Undeclared.sample 0 (scenarioABC 3) (scenarioAC 2)
      (.remove ⟨0, 1⟩) (by decide) 1 { u := .uData 20, mGeneration := 0, mHasData := true }
      (by decide)).1
    h.elim fun node1 hn => ⟨node1, hn.1, hn.2.1 (by decide)⟩⟩

/-! ## C24: the free list and the occupied slots -/

theorem countP_set {α : Type} (p : α → Bool) :
    ∀ (l : List α) (i : Nat) (x y : α), l[i]? = some y →
      (l.set i x).countP p + (if p y = true then 1 else 0) =
        l.countP p + (if p x = true then 1 else 0) := by
  intro l
  induction l with
  | nil => intro i x y h; cases h
  | cons a t ih =>
    intro i x y h
    cases i with
    | zero =>
      have e : a = y := by simpa using h
      subst e
      simp only [List.set_cons_zero, List.countP_cons]
      omega
    | succ k =>
      have h1 : t[k]? = some y := by simpa using h
      have := ih k x y h1
      simp only [List.set_cons_succ, List.countP_cons]
      omega

/-- In a well-formed state `insert` returns, the state afterwards is well-formed, and
one more slot is occupied. -/
theorem WellFormed.after_insert {V : Type} {m : SlotMap V} (hw : WellFormed m) (data : V) :
    ∃ h m1, m.insert data = .returned h m1 ∧ WellFormed m1 ∧
      m1.occupied = m.occupied + 1 ∧ m1.mSize = (m.mSize + 1) % U32 := by
  obtain ⟨l, hnd, hc, hmem, hcount⟩ := hw
  cases l with
  | nil =>
    have hhead : m.mFreeList = SIZE_MAX := hc
    have hocc : (m.mNodes ++
        [({ u := .uData data, mGeneration := 0, mHasData := true } : Node V)]).countP
          (fun node => node.mHasData) = m.occupied + 1 := by
      rw [List.countP_append]
      rfl
    refine ⟨_, _, SlotMap.insert_append m data hhead, ⟨[], List.nodup_nil, rfl, ?_, ?_⟩,
      hocc, rfl⟩
    · intro i node hnode
      show node.mHasData = false ↔ i ∈ []
      by_cases hi : i < m.mNodes.length
      · have hnode1 : m.mNodes[i]? = some node := by
          rw [← List.getElem?_append_left hi]; exact hnode
        exact hmem i node hnode1
      · have hlen := (List.getElem?_eq_some.mp hnode).1
        have hlen1 : i < m.mNodes.length + 1 := by simpa using hlen
        have hi1 : i = m.mNodes.length := by omega
        subst hi1
        have hnode1 : some ({ u := .uData data, mGeneration := 0, mHasData := true } : Node V) =
            some node := by
          rw [← hnode]
          simp
        cases hnode1
        simp
    · show (m.mNodes ++ _).countP _ + 0 = (m.mNodes ++ _).length
      rw [hocc, List.length_append]
      have : m.occupied + 0 = m.mNodes.length := hcount
      simp only [List.length_singleton]
      omega
  | cons i rest =>
    obtain ⟨h1, h2, next, g, hnode, hrest⟩ := hc
    have hne : m.mFreeList ≠ SIZE_MAX := by
      rw [h1]; unfold U32 at h2; unfold SIZE_MAX; omega
    have hnode1 : m.mNodes[m.mFreeList]? =
        some { u := .uNextFree next, mGeneration := g, mHasData := false } := by
      rw [h1]; exact hnode
    have hnd1 := List.nodup_cons.mp hnd
    have hset := countP_set (fun node : Node V => node.mHasData) m.mNodes i
      { u := .uData data, mGeneration := g, mHasData := true } _ hnode
    simp only [Bool.false_eq_true, ↓reduceIte, Nat.add_zero] at hset
    have hocc : (m.mNodes.set m.mFreeList
        ({ u := .uData data, mGeneration := g, mHasData := true } : Node V)).countP
          (fun node => node.mHasData) = m.occupied + 1 := by
      rw [h1]; exact hset
    refine ⟨_, _, SlotMap.insert_recycle m data next g false hne hnode1,
      ⟨rest, hnd1.2, ?_, ?_, ?_⟩, hocc, rfl⟩
    · show FreeChain (m.mNodes.set m.mFreeList _) next rest
      rw [h1]
      exact FreeChain.set_of_not_mem _ hnd1.1 hrest
    · intro j node1 hnode2
      show node1.mHasData = false ↔ j ∈ rest
      have hnode3 : (m.mNodes.set i
          ({ u := .uData data, mGeneration := g, mHasData := true } : Node V))[j]? =
            some node1 := by
        rw [← h1]; exact hnode2
      by_cases hj : j = i
      · subst hj
        have hlt := (List.getElem?_eq_some.mp hnode).1
        rw [List.getElem?_set_self hlt] at hnode3
        cases hnode3
        simp [hnd1.1]
      · rw [List.getElem?_set_ne (Ne.symm hj)] at hnode3
        rw [hmem j node1 hnode3]
        simp [hj]
    · show (m.mNodes.set m.mFreeList _).countP _ + rest.length = (m.mNodes.set m.mFreeList _).length
      rw [hocc, List.length_set]
      have : m.occupied + (rest.length + 1) = m.mNodes.length := hcount
      omega

/-- In a well-formed state `remove` of the key of an occupied slot returns, the state
afterwards is well-formed, and one slot fewer is occupied. -/
theorem WellFormed.after_remove {V : Type} {m : SlotMap V} (hw : WellFormed m) (key : SlotKey)
    (hrange : key.InRange) (hvalid : validationRule m key = true) :
    ∃ m1, m.remove key = .returned () m1 ∧ WellFormed m1 ∧
      m1.occupied + 1 = m.occupied ∧ m1.mSize = (m.mSize + U32 - 1) % U32 := by
  obtain ⟨l, hnd, hc, hmem, hcount⟩ := hw
  have hcont := SlotMap.contains_of_validationRule m key hvalid
  rcases SlotMap.remove_cases m key with ⟨hcf, _⟩ | ⟨_, hlt, hret⟩
  · rw [hcont] at hcf; cases hcf
  · unfold validationRule at hvalid
    have hnode : m.mNodes[key.mIndex]? = some m.mNodes[key.mIndex] :=
      List.getElem?_eq_getElem hlt
    rw [hnode] at hvalid
    simp only [Bool.and_eq_true, decide_eq_true_eq] at hvalid
    have hnotmem : key.mIndex ∉ l := by
      intro hin
      have hfree := (hmem _ _ hnode).mpr hin
      rw [hvalid.1] at hfree
      cases hfree
    have hset := countP_set (fun node : Node V => node.mHasData) m.mNodes key.mIndex
      { u := .uNextFree m.mFreeList, mGeneration := (m.mNodes[key.mIndex].mGeneration + 1) % U32,
        mHasData := false } _ hnode
    simp only [hvalid.1, ↓reduceIte, Bool.false_eq_true, Nat.add_zero] at hset
    have hocc : (m.freeNode key.mIndex m.mNodes[key.mIndex]).countP
        (fun node => node.mHasData) + 1 = m.occupied := hset
    refine ⟨_, hret, ⟨key.mIndex :: l, List.nodup_cons.mpr ⟨hnotmem, hnd⟩, ?_, ?_, ?_⟩,
      hocc, rfl⟩
    · refine ⟨rfl, hrange.2, m.mFreeList, (m.mNodes[key.mIndex].mGeneration + 1) % U32, ?_, ?_⟩
      · show (m.mNodes.set key.mIndex _)[key.mIndex]? = _
        rw [List.getElem?_set_self hlt]
      · exact FreeChain.set_of_not_mem _ hnotmem hc
    · intro j node1 hnode2
      show node1.mHasData = false ↔ j ∈ key.mIndex :: l
      have hnode3 : (m.mNodes.set key.mIndex
          ({ u := .uNextFree m.mFreeList,
             mGeneration := (m.mNodes[key.mIndex].mGeneration + 1) % U32,
             mHasData := false } : Node V))[j]? = some node1 := hnode2
      by_cases hj : j = key.mIndex
      · subst hj
        rw [List.getElem?_set_self hlt] at hnode3
        cases hnode3
        simp
      · rw [List.getElem?_set_ne (Ne.symm hj)] at hnode3
        rw [hmem j node1 hnode3]
        simp [hj]
    · show (m.freeNode key.mIndex m.mNodes[key.mIndex]).countP _ + (l.length + 1) =
        (m.freeNode key.mIndex m.mNodes[key.mIndex]).length
      have hlen : (m.freeNode key.mIndex m.mNodes[key.mIndex]).length = m.mNodes.length := by
        unfold SlotMap.freeNode
        exact List.length_set ..
      rw [hlen]
      have : m.occupied + l.length = m.mNodes.length := hcount
      omega

theorem WellFormed.of_ctor {V : Type} (indeterminate : Nat) :
    WellFormed (SlotMap.ctor indeterminate : SlotMap V) :=
  ⟨[], List.nodup_nil, rfl, (by intro i node h; cases h), rfl⟩

theorem Reachable.wellFormed {V : Type} {m : SlotMap V} (hr : Reachable m) :
    WellFormed m := by
  induction hr with
  | ctor indeterminate => exact WellFormed.of_ctor indeterminate
  | insert _ hins ih =>
    obtain ⟨h, m1, hins1, hw1, _⟩ := WellFormed.after_insert ih _
    rw [hins] at hins1
    cases hins1
    exact hw1
  | remove _ hrange hvalid hrem ih =>
    obtain ⟨m1, hrem1, hw1, _⟩ := WellFormed.after_remove ih _ hrange hvalid
    rw [hrem] at hrem1
    cases hrem1
    exact hw1

/-- C24 as stated fails.  On a new map `insert`, `remove` of the returned handle `(0, 0)`
and `remove` with the handle `(1, 0)`, which names the freed slot and its new generation,
all return; afterwards slot 0 is free and its next-free link is 0, the slot itself: the
free list that starts at the head never reaches the sentinel, so the state is not
well-formed.  The live count is 2^32 - 1 where no slot is occupied. -/
theorem C24_counterexample :
    (SlotMap.ctor 0 : SlotMap Nat).run Undeclared.sample 0
      [.insert 0, .remove ⟨0, 0⟩, .remove ⟨1, 0⟩] = some selfLinked ∧
    ¬ WellFormed selfLinked ∧
    selfLinked.occupied = 0 ∧ selfLinked.Size = 4294967295 := by
  refine ⟨by decide, ?_, by decide, by decide⟩
  rintro ⟨l, hnd, hc, _, _⟩
  have hsz : (0 : Nat) ≠ SIZE_MAX := by decide
  cases l with
  | nil => exact hsz hc
  | cons i rest =>
    obtain ⟨h1, _, next, g, hnode, hrest⟩ := hc
    have h1 : (0 : Nat) = i := h1
    subst h1
    have hnext : next = 0 := by
      have h := Option.some.inj hnode
      simp only [selfLinked, List.getElem_cons_zero, Node.mk.injEq, Payload.uNextFree.injEq] at h
      exact h.1.symm
    subst hnext
    cases rest with
    | nil => exact hsz hrest
    | cons j rest1 =>
      obtain ⟨h2, _⟩ := hrest
      subst h2
      exact (List.nodup_cons.mp hnd).1 (List.mem_cons_self _ _)

/-- C24, amended: every state reached from the empty map by `insert` and by `remove` of
handles of occupied slots is well-formed: the free list that starts at the head is
acyclic, ends at the sentinel, visits exactly the free slots, each once, and the number
of occupied slots is the backing-store length minus the number of slots on the free
list.  In such a state `insert` returns, `remove` of the handle of an occupied slot
returns, the state afterwards is well-formed again, and the live count and the number of
occupied slots both change by one, up for `insert` and down for `remove`, the live
count in 32 bit arithmetic. -/
theorem C24_well_formed_preserved {V : Type} {m : SlotMap V} (hr : Reachable m) :
    WellFormed m ∧
    (∀ data : V, ∃ h m1, m.insert data = .returned h m1 ∧ WellFormed m1 ∧
      m1.occupied = m.occupied + 1 ∧ m1.mSize = (m.mSize + 1) % U32) ∧
    (∀ key : SlotKey, key.InRange → validationRule m key = true →
      ∃ m1, m.remove key = .returned () m1 ∧ WellFormed m1 ∧
        m1.occupied + 1 = m.occupied ∧ m1.mSize = (m.mSize + U32 - 1) % U32) :=
  ⟨hr.wellFormed, fun data => WellFormed.after_insert hr.wellFormed data,
    fun key hrange hvalid => WellFormed.after_remove hr.wellFormed key hrange hvalid⟩

/-- Witness for C24: the map after `insert` and `remove` of the returned handle. -/
theorem C24_well_formed_preserved_witness :
    Reachable (oneFree 1 0) ∧ WellFormed (oneFree 1 0) :=
  have hr : Reachable (oneFree 1 0) :=
    @Reachable.remove _ (filled 1 1) _ ⟨0, 0⟩
      (@Reachable.insert _ (SlotMap.ctor 0) _ 0 ⟨⟨0, 0⟩⟩ (Reachable.ctor 0) (by decide))
      (by decide) (by decide) (by decide)
  ⟨hr, (C24_well_formed_preserved hr).1⟩

/-! ## C25: `operator++` of the iterators -/

theorem iterator.increment_at_end {V : Type} (m : SlotMap V) (it : iterator)
    (hge : it.mIndex ≥ m.mNodes.length) :
    iterator.increment m it = .threw "Incremented iterator on end" m := by
  unfold iterator.increment
  simp only [hge, if_true]

/-- When an occupied slot follows the position, `operator++` stops at the first one. -/
theorem iterator.increment_found {V : Type} (m : SlotMap V) (it : iterator) (q : Nat)
    (node : Node V) (hp : it.mIndex < q) (hq : m.mNodes[q]? = some node)
    (hocc : node.mHasData = true)
    (hfree : ∀ j n, it.mIndex < j → j < q → m.mNodes[j]? = some n → n.mHasData = false) :
    iterator.increment m it = .returned { mPtr := it.mPtr, mIndex := q } m := by
  have hqlt : q < m.mNodes.length := (List.getElem?_eq_some.mp hq).1
  unfold iterator.increment
  have hnot : ¬ it.mIndex ≥ m.mNodes.length := by omega
  simp only [hnot, if_false]
  exact iterator.skipFree_found m it.mPtr q node hq hocc _ _ (by omega) (by omega)
    (fun j n hj hjq hn => hfree j n (by omega) hjq hn)

theorem const_iterator.skipFree_no_data {V : Type} (has_data : Node V → Bool)
    (m : SlotMap V) (mPtr : Nat) :
    ∀ (rounds mIndex : Nat),
      (∀ j node, mIndex ≤ j → m.mNodes[j]? = some node → has_data node = false) →
      const_iterator.skipFree has_data m mPtr rounds mIndex = .undefined := by
  intro rounds
  induction rounds with
  | zero => intro mIndex _; rfl
  | succ rounds ih =>
    intro mIndex hfree
    cases hnode : m.mNodes[mIndex]? with
    | none => simp [const_iterator.skipFree, hnode]
    | some node =>
      have hlt : mIndex < m.mNodes.length := (List.getElem?_eq_some.mp hnode).1
      have hnot : ¬ mIndex ≥ m.mNodes.length := by omega
      have hf : has_data node = false := hfree mIndex node (Nat.le_refl _) hnode
      rw [const_iterator.skipFree]
      simp only [hnode, hf, hnot, if_true, if_false]
      exact ih (mIndex + 1) (fun j n hj hn => hfree j n (by omega) hn)

/-- In every state `operator++` of a `const_iterator` at a position after which no slot
has data is undefined, whatever `has_data` stands for: it reads `mNodes[size]`. -/
theorem const_iterator.increment_no_data {V : Type} (has_data : Node V → Bool) (m : SlotMap V)
    (it : const_iterator) (hlt : it.mIndex < m.mNodes.length)
    (hfree : ∀ j node, it.mIndex < j → m.mNodes[j]? = some node → has_data node = false) :
    const_iterator.increment has_data m it = .undefined := by
  unfold const_iterator.increment
  have hnot : ¬ it.mIndex ≥ m.mNodes.length := by omega
  simp only [hnot, if_false]
  exact const_iterator.skipFree_no_data has_data m it.mPtr _ _
    (fun j n hj hn => hfree j n (by omega) hn)

/-- C25 on the code, on the scenario map whose slots 0 and 2 are occupied and whose
slot 1 is free.  At position 0 `operator++` skips the free slot and stops at position 2,
and at position 3, the size, it throws, as the claim says.  But at position 2, below the
size and with no occupied slot after it, it does not stop at position 3: it reads
`mNodes[3]`, outside the vector, before it compares the position with the size, and is
undefined.  The same holds for `operator++` of `const_iterator`, whatever its undeclared
`has_data` stands for, and on the map of one occupied slot at position 0. -/
theorem C25_increment_reads_past_end :
    iterator.increment (scenarioAC 2) { mPtr := 0, mIndex := 0 } =
      .returned { mPtr := 0, mIndex := 2 } (scenarioAC 2) ∧
    iterator.increment (scenarioAC 2) { mPtr := 0, mIndex := 3 } =
      .threw "Incremented iterator on end" (scenarioAC 2) ∧
    (scenarioAC 2).mNodes.length = 3 ∧
    (scenarioAC 2).mNodes[3]? = none ∧
    iterator.increment (scenarioAC 2) { mPtr := 0, mIndex := 2 } = .undefined ∧
    (∀ has_data : Node Nat → Bool,
      const_iterator.increment has_data (scenarioAC 2) { mPtr := 0, mIndex := 2 } =
        .undefined) ∧
    const_iterator.increment (fun node => node.mHasData) (scenarioAC 2)
        { mPtr := 0, mIndex := 0 } = .returned { mPtr := 0, mIndex := 2 } (scenarioAC 2) ∧
    iterator.increment (filled 1 1) { mPtr := 0, mIndex := 0 } = .undefined := by
  refine ⟨by decide, by decide, by decide, by decide, by decide, ?_, by decide, by decide⟩
  intro has_data
  rfl

/-! ## C26: `begin()` and `end()` -/

/-- C26 on the code.  In every state `end()` is the position equal to the backing-store
length and `begin()` is the position 0, whatever slot 0 holds; so `begin() == end()` for
every empty store, as the claim says.  But after `insert(10)`, `insert(20)` and `remove`
of the first handle the smallest index of an occupied slot is 1, and `begin()` is the
position 0, a free slot; and after `insert(0)` and `remove` of its handle no slot is
occupied, and `begin()` is not `end()`. -/
theorem C26_begin_is_position_zero :
    (∀ (m : SlotMap Nat) (this : Nat),
      m.end_ this = { mPtr := this, mIndex := m.mNodes.length } ∧
      m.begin this = { mPtr := this, mIndex := 0 }) ∧
    (∀ (this head size : Nat),
      iterator.eq
        (SlotMap.begin this ({ mNodes := [], mFreeList := head, mSize := size } : SlotMap Nat))
        (SlotMap.end_ this ({ mNodes := [], mFreeList := head, mSize := size } : SlotMap Nat)) =
          true) ∧
    (SlotMap.ctor 0 : SlotMap Nat).run Undeclared.sample 0
        [.insert 10, .insert 20, .remove ⟨0, 0⟩] = some (firstFree 1) ∧
    (firstFree 1).mNodes[0]? =
      some { u := .uNextFree SIZE_MAX, mGeneration := 1, mHasData := false } ∧
    (firstFree 1).mNodes[1]? = some { u := .uData 20, mGeneration := 0, mHasData := true } ∧
    (firstFree 1).begin 0 = { mPtr := 0, mIndex := 0 } ∧
    (SlotMap.ctor 0 : SlotMap Nat).run Undeclared.sample 0
        [.insert 0, .remove ⟨0, 0⟩] = some (oneFree 1 0) ∧
    (oneFree 1 0).occupied = 0 ∧
    (oneFree 1 0).begin 0 = { mPtr := 0, mIndex := 0 } ∧
    (oneFree 1 0).end_ 0 = { mPtr := 0, mIndex := 1 } ∧
    iterator.eq ((oneFree 1 0).begin 0) ((oneFree 1 0).end_ 0) = false := by
  refine ⟨fun m this => ⟨rfl, rfl⟩, ?_, by decide, by decide, by decide, by decide,
    by decide, by decide, by decide, by decide, by decide⟩
  intro this head size
  simp [iterator.eq, SlotMap.begin, SlotMap.end_]

/-! ## C27: the hash of a handle -/

/-- C27: `KeyHasher` computes, in `size_t` arithmetic modulo 2^64 with Hg the hash of the
generation and Hi the hash of the index, Hg XOR (Hi + 0x9e3779b9 + (Hg << 6) + (Hg >> 2));
equal handles hash equally; `TypedKeyHasher` returns for a `TypedKey` what `KeyHasher`
returns for the key it wraps; and when the hash of the index type is injective on the
32 bit indices, two handles of 32 bit members with the same generation and different
indices hash differently. -/
theorem C27_KeyHasher (hashGeneration hashIndex : Nat → Nat)
    (hinj : ∀ i j, i < U32 → j < U32 →
      hashIndex i % SIZE_T = hashIndex j % SIZE_T → i = j) :
    (∀ key : SlotKey,
      KeyHasher hashGeneration hashIndex key =
        (hashGeneration key.mGeneration % SIZE_T) ^^^
          ((hashIndex key.mIndex % SIZE_T + 0x9e3779b9 +
            ((hashGeneration key.mGeneration % SIZE_T) <<< 6) % SIZE_T +
            (hashGeneration key.mGeneration % SIZE_T) >>> 2) % SIZE_T)) ∧
    (∀ key : SlotKey, KeyHasher hashGeneration hashIndex key < SIZE_T) ∧
    (∀ a b : SlotKey, SlotKey.eq a b = true →
      KeyHasher hashGeneration hashIndex a = KeyHasher hashGeneration hashIndex b) ∧
    (∀ key : TypedKey,
      TypedKeyHasher hashGeneration hashIndex key =
        KeyHasher hashGeneration hashIndex key.mKey) ∧
    (∀ a b : SlotKey, a.InRange → b.InRange → a.mGeneration = b.mGeneration →
      a.mIndex ≠ b.mIndex →
      KeyHasher hashGeneration hashIndex a ≠ KeyHasher hashGeneration hashIndex b) := by
  refine ⟨fun key => rfl, ?_, ?_, fun key => rfl, ?_⟩
  · intro key
    have hpow : SIZE_T = 2 ^ 64 := by decide
    show (hashGeneration key.mGeneration % SIZE_T) ^^^ (_ % SIZE_T) < SIZE_T
    rw [hpow]
    exact Nat.xor_lt_two_pow (Nat.mod_lt _ (by decide)) (Nat.mod_lt _ (by decide))
  · intro a b hab
    have : a = b := by
      cases a with
      | mk ga ia =>
        cases b with
        | mk gb ib =>
          simp only [SlotKey.eq, Bool.and_eq_true, decide_eq_true_eq] at hab
          obtain ⟨h1, h2⟩ := hab
          show (⟨ga, ia⟩ : SlotKey) = ⟨gb, ib⟩
          rw [h1, h2]
    rw [this]
  · intro a b ha hb hg hi heq
    have h1 : KeyHasher hashGeneration hashIndex a =
        (hashGeneration a.mGeneration % SIZE_T) ^^^
          ((hashIndex a.mIndex % SIZE_T + 0x9e3779b9 +
            ((hashGeneration a.mGeneration % SIZE_T) <<< 6) % SIZE_T +
            (hashGeneration a.mGeneration % SIZE_T) >>> 2) % SIZE_T) := rfl
    have h2 : KeyHasher hashGeneration hashIndex b =
        (hashGeneration a.mGeneration % SIZE_T) ^^^
          ((hashIndex b.mIndex % SIZE_T + 0x9e3779b9 +
            ((hashGeneration a.mGeneration % SIZE_T) <<< 6) % SIZE_T +
            (hashGeneration a.mGeneration % SIZE_T) >>> 2) % SIZE_T) := by
      rw [hg]; rfl
    rw [h1, h2] at heq
    have h3 := Nat.xor_right_injective heq
    have hx : hashIndex a.mIndex % SIZE_T < SIZE_T := Nat.mod_lt _ (by decide)
    have hy : hashIndex b.mIndex % SIZE_T < SIZE_T := Nat.mod_lt _ (by decide)
    have h4 : hashIndex a.mIndex % SIZE_T = hashIndex b.mIndex % SIZE_T := by
      generalize hashIndex a.mIndex % SIZE_T = x at h3 hx
      generalize hashIndex b.mIndex % SIZE_T = y at h3 hy
      generalize ((hashGeneration a.mGeneration % SIZE_T) <<< 6) % SIZE_T = s at h3
      generalize (hashGeneration a.mGeneration % SIZE_T) >>> 2 = t at h3
      unfold SIZE_T at h3 hx hy
      omega
    exact hi (hinj _ _ ha.2 hb.2 h4)

/-- Witness for C27: both hashes are the identity, as in the common implementations of
`std::hash<unsigned>`. -/
theorem C27_KeyHasher_witness :
    (∀ i j, i < U32 → j < U32 → id i % SIZE_T = id j % SIZE_T → i = j) ∧
    KeyHasher id id ⟨1, 2⟩ = 2654435834 ∧
    TypedKeyHasher id id ⟨⟨1, 2⟩⟩ = KeyHasher id id ⟨1, 2⟩ ∧
    KeyHasher id id ⟨1, 2⟩ ≠ KeyHasher id id ⟨1, 3⟩ :=
  have hinj : ∀ i j, i < U32 → j < U32 → id i % SIZE_T = id j % SIZE_T → i = j := by
    intro i j hi hj h
    simp only [id] at h
    unfold U32 at hi hj
    unfold SIZE_T at h
    omega
  ⟨hinj, (C27_KeyHasher id id hinj).1 ⟨1, 2⟩ ▸ by decide,
    (C27_KeyHasher id id hinj).2.2.2.1 ⟨⟨1, 2⟩⟩,
    (C27_KeyHasher id id hinj).2.2.2.2 ⟨1, 2⟩ ⟨1, 3⟩ (by decide) (by decide) rfl (by decide)⟩

end Slotmap
